import Mathlib

/-!
Verification development for the orbital-element conversion core of the
`openastro/astro` library (`include/astro/orbitalElementConversions.hpp`).

Modelling conventions.

The C++ code computes with IEEE doubles.  The shallow embedding uses exact
real arithmetic (`ℝ`); claims phrased "to numerical tolerance" are settled
by proving the exact-real identity (which implies any relative tolerance)
or refuted by exhibiting gaps far larger than the stated tolerance.

The value `NaN` is a deliberate sentinel of the library ("undefined orbital
angle").  Values are therefore modelled by `Option ℝ`: `none` models a
non-finite IEEE result (NaN, or an infinity arising from division by zero);
`some x` models the finite value `x`.  The operations `+ - *` are lifted
pointwise; division returns `none` on a zero denominator, `sqrt` on a
negative argument, `acos` outside `[-1, 1]`, matching where IEEE produces
non-finite results from finite operands.  All theorems below evaluate the
embedding only at points where divisions are by nonzero numbers, so the
conflation of NaN with infinity is immaterial there.  Comparisons on
`Option ℝ` (used in branch conditions) are false when an operand is `none`,
exactly as IEEE comparisons are false on NaN.

The C++ sources fix `pi` as the double literal `3.14159265358979323846`,
the IEEE rounding of π; the real-arithmetic model uses `π` itself.
`assert` preconditions are modelled as the error results named by the
specification's error taxonomy (§7 of the spec); `throw` is modelled as an
error result as well.
-/

namespace astro

open Real
open Classical

/-- Finite-or-undefined real value: `none` models a non-finite IEEE double
(NaN or infinity), `some x` a finite value. -/
abbrev FR : Type := Option ℝ

/-- Embed a finite real. -/
def fr (x : ℝ) : FR := some x

/-- Lifted addition. -/
def fadd : FR → FR → FR
  | some a, some b => some (a + b)
  | _, _ => none

/-- Lifted subtraction. -/
def fsub : FR → FR → FR
  | some a, some b => some (a - b)
  | _, _ => none

/-- Lifted multiplication. -/
def fmul : FR → FR → FR
  | some a, some b => some (a * b)
  | _, _ => none

/-- Lifted negation. -/
def fneg : FR → FR
  | some a => some (-a)
  | none => none

open Classical in
/-- Lifted division; a zero denominator yields no finite value. -/
noncomputable def fdiv : FR → FR → FR
  | some a, some b => if b = 0 then none else some (a / b)
  | _, _ => none

open Classical in
/-- Lifted square root; a negative argument yields NaN in IEEE. -/
noncomputable def fsqrt : FR → FR
  | some a => if a < 0 then none else some (Real.sqrt a)
  | none => none

open Classical in
/-- Lifted `acos`; an argument outside `[-1, 1]` yields NaN in IEEE. -/
noncomputable def facos : FR → FR
  | some a => if a < -1 ∨ 1 < a then none else some (Real.arccos a)
  | none => none

/-- Lifted cosine. -/
noncomputable def fcos : FR → FR := Option.map Real.cos

/-- Lifted sine. -/
noncomputable def fsin : FR → FR := Option.map Real.sin

/-- Lifted absolute value (`std::fabs`). -/
def fabsF : FR → FR := Option.map (fun x => |x|)

/-- Comparison `a < t` against a finite bound; false when `a` is `none`,
as IEEE comparisons are false on NaN. -/
def fltP (a : FR) (t : ℝ) : Prop := ∃ v, a = some v ∧ v < t

/-- Comparison `t < a`; false when `a` is `none`. -/
def fgtP (a : FR) (t : ℝ) : Prop := ∃ v, a = some v ∧ t < v

@[simp] theorem fadd_some (a b : ℝ) : fadd (some a) (some b) = some (a + b) := rfl

@[simp] theorem fsub_some (a b : ℝ) : fsub (some a) (some b) = some (a - b) := rfl

@[simp] theorem fmul_some (a b : ℝ) : fmul (some a) (some b) = some (a * b) := rfl

@[simp] theorem fneg_some (a : ℝ) : fneg (some a) = some (-a) := rfl

theorem fdiv_some {b : ℝ} (a : ℝ) (hb : b ≠ 0) :
    fdiv (some a) (some b) = some (a / b) := by
  simp [fdiv, hb]

theorem fsqrt_some {a : ℝ} (ha : 0 ≤ a) : fsqrt (some a) = some (Real.sqrt a) := by
  simp [fsqrt, not_lt.mpr ha]

theorem facos_some {a : ℝ} (h1 : -1 ≤ a) (h2 : a ≤ 1) :
    facos (some a) = some (Real.arccos a) := by
  simp [facos, not_lt.mpr h1, not_lt.mpr h2]

@[simp] theorem fcos_some (a : ℝ) : fcos (some a) = some (Real.cos a) := rfl

@[simp] theorem fsin_some (a : ℝ) : fsin (some a) = some (Real.sin a) := rfl

@[simp] theorem fabsF_some (a : ℝ) : fabsF (some a) = some |a| := rfl

@[simp] theorem fr_def (x : ℝ) : fr x = some x := rfl

theorem fltP_some {a t : ℝ} : fltP (some a) t ↔ a < t := by
  constructor
  · rintro ⟨v, hv, hlt⟩
    exact (Option.some_inj.mp hv) ▸ hlt
  · intro h
    exact ⟨a, rfl, h⟩

theorem fgtP_some {a t : ℝ} : fgtP (some a) t ↔ t < a := by
  constructor
  · rintro ⟨v, hv, hlt⟩
    exact (Option.some_inj.mp hv) ▸ hlt
  · intro h
    exact ⟨a, rfl, h⟩

/-! ### Anomaly conversions (closed forms)

Translated from `include/astro/orbitalElementConversions.hpp`.  These
routines divide only by quantities that are nonzero under their stated
eccentricity preconditions, so they are modelled directly over `ℝ`
(`Real.sqrt` agrees with `std::sqrt` on the nonnegative arguments that
arise; `std::pow(e, 2.0)` is `e ^ 2` for the nonnegative `e` allowed by
the precondition). -/

open Classical in
/-- Two-argument arctangent, the semantics of `std::atan2 y x` on finite
inputs (signed zero is not distinguished over `ℝ`). -/
noncomputable def atan2 (y x : ℝ) : ℝ :=
  if 0 < x then Real.arctan (y / x)
  else if x < 0 then
    (if 0 ≤ y then Real.arctan (y / x) + π else Real.arctan (y / x) - π)
  else (if 0 < y then π / 2 else if y < 0 then -(π / 2) else 0)

/-- `convertTrueAnomalyToEllipticalEccentricAnomaly` (lines 419-435):
precondition `0 ≤ e < 1` (an `assert` in the source). -/
noncomputable def convertTrueAnomalyToEllipticalEccentricAnomaly
    (trueAnomaly eccentricity : ℝ) : ℝ :=
  atan2
    (Real.sqrt (1 - eccentricity ^ 2) * Real.sin trueAnomaly
      / (1 + eccentricity * Real.cos trueAnomaly))
    ((eccentricity + Real.cos trueAnomaly)
      / (1 + eccentricity * Real.cos trueAnomaly))

/-- `convertTrueAnomalyToHyperbolicEccentricAnomaly` (lines 452-473):
precondition `e > 1`. -/
noncomputable def convertTrueAnomalyToHyperbolicEccentricAnomaly
    (trueAnomaly eccentricity : ℝ) : ℝ :=
  let angle :=
    (Real.sqrt (eccentricity ^ 2 - 1) * Real.sin trueAnomaly
        / (1 + Real.cos trueAnomaly))
      / ((Real.cos trueAnomaly + eccentricity) / (1 + Real.cos trueAnomaly))
  0.5 * (Real.log (1 + angle) - Real.log (1 - angle))

/-- `convertEllipticalEccentricAnomalyToMeanAnomaly` (lines 533-540). -/
noncomputable def convertEllipticalEccentricAnomalyToMeanAnomaly
    (ellipticalEccentricAnomaly eccentricity : ℝ) : ℝ :=
  ellipticalEccentricAnomaly - eccentricity * Real.sin ellipticalEccentricAnomaly

/-- `convertHyperbolicEccentricAnomalyToMeanAnomaly` (lines 557-564). -/
noncomputable def convertHyperbolicEccentricAnomalyToMeanAnomaly
    (hyperbolicEccentricAnomaly eccentricity : ℝ) : ℝ :=
  eccentricity * Real.sinh hyperbolicEccentricAnomaly - hyperbolicEccentricAnomaly

/-- Error taxonomy of the specification (§7).  The source signals
`MaxIterationsExceeded` with `throw std::runtime_error` and the remaining
conditions with `assert` guards; both are modelled as these error values. -/
inductive ConversionError where
  | negativeEccentricity
  | parabolicNotSupported
  | invalidEccentricity
  | maxIterationsExceeded
  deriving DecidableEq

open Classical in
/-- `convertTrueAnomalyToEccentricAnomaly` (lines 494-517): dispatch
wrapper.  The source guard is
`assert(e >= 0.0 && fabs(e - 1.0) > epsilon)`; it is modelled as the two
taxonomy errors (`e < 0` and `|e - 1| ≤ ε`), with `eps` the machine
epsilon of the instantiated floating-point type. -/
noncomputable def convertTrueAnomalyToEccentricAnomaly
    (trueAnomaly eccentricity eps : ℝ) : Except ConversionError ℝ :=
  if eccentricity < 0 then .error .negativeEccentricity
  else if |eccentricity - 1| ≤ eps then .error .parabolicNotSupported
  else .ok
    (if 0 ≤ eccentricity ∧ eccentricity < 1 then
      convertTrueAnomalyToEllipticalEccentricAnomaly trueAnomaly eccentricity
    else if 1 < eccentricity then
      convertTrueAnomalyToHyperbolicEccentricAnomaly trueAnomaly eccentricity
    else 0)

open Classical in
/-- `convertEccentricAnomalyToMeanAnomaly` (lines 585-609): dispatch
wrapper, same guard modelling as `convertTrueAnomalyToEccentricAnomaly`. -/
noncomputable def convertEccentricAnomalyToMeanAnomaly
    (eccentricAnomaly eccentricity eps : ℝ) : Except ConversionError ℝ :=
  if eccentricity < 0 then .error .negativeEccentricity
  else if |eccentricity - 1| ≤ eps then .error .parabolicNotSupported
  else .ok
    (if 0 ≤ eccentricity ∧ eccentricity < 1 then
      convertEllipticalEccentricAnomalyToMeanAnomaly eccentricAnomaly eccentricity
    else if 1 < eccentricity then
      convertHyperbolicEccentricAnomalyToMeanAnomaly eccentricAnomaly eccentricity
    else 0)

/-! ### Kepler root solvers -/

/-- `computeEllipticalKeplerFunction` (lines 727-733). -/
noncomputable def computeEllipticalKeplerFunction
    (eccentricAnomaly eccentricity meanAnomaly : ℝ) : ℝ :=
  eccentricAnomaly - eccentricity * Real.sin eccentricAnomaly - meanAnomaly

/-- `computeFirstDerivativeEllipticalKeplerFunction` (lines 753-758). -/
noncomputable def computeFirstDerivativeEllipticalKeplerFunction
    (eccentricAnomaly eccentricity : ℝ) : ℝ :=
  1 - eccentricity * Real.cos eccentricAnomaly

open Classical in
/-- Truncation toward zero, the semantics of a C cast of a finite double
to an integer (as used implicitly by `std::fmod`). -/
noncomputable def ctrunc (t : ℝ) : ℝ :=
  if 0 ≤ t then ((⌊t⌋ : ℤ) : ℝ) else ((⌈t⌉ : ℤ) : ℝ)

/-- `std::fmod a b` on finite doubles: `a - b * trunc (a / b)`. -/
noncomputable def cfmod (a b : ℝ) : ℝ := a - b * ctrunc (a / b)

open Classical in
/-- The shift of the mean anomaly into `[0, 2π)` performed by both
mean-to-eccentric solvers (lines 794-799 and 880-885): `fmod` by `2π`,
plus `2π` if the remainder is negative. -/
noncomputable def shiftMeanAnomaly (meanAnomaly : ℝ) : ℝ :=
  if cfmod meanAnomaly (2 * π) < 0 then cfmod meanAnomaly (2 * π) + 2 * π
  else cfmod meanAnomaly (2 * π)

open Classical in
/-- Initial guess of the Newton-Raphson solver (lines 809-817):
`M + e` for shifted `M ≤ π`, `M - e` for shifted `M > π`. -/
noncomputable def nrInitialGuess (eccentricity meanAnomalyShifted : ℝ) : ℝ :=
  if π < meanAnomalyShifted then meanAnomalyShifted - eccentricity
  else meanAnomalyShifted + eccentricity

open Classical in
/-- The Newton-Raphson loop of lines 821-845.  One fuel unit is one loop
iteration; exhausted fuel is the `i == maximumIterations` throw.  N.B. the
source stopping test is on the SIGNED difference
`eccentricAnomaly - nextEccentricAnomaly < rootFindingTolerance`
(line 841 has no `fabs`); the embedding reproduces this faithfully. -/
noncomputable def nrIterate (eccentricity meanAnomalyShifted rootFindingTolerance : ℝ) :
    ℕ → ℝ → Except ConversionError ℝ
  | 0, _ => .error .maxIterationsExceeded
  | fuel + 1, eccentricAnomaly =>
    let nextEccentricAnomaly :=
      eccentricAnomaly -
        computeEllipticalKeplerFunction eccentricAnomaly eccentricity meanAnomalyShifted /
          computeFirstDerivativeEllipticalKeplerFunction eccentricAnomaly eccentricity
    if eccentricAnomaly - nextEccentricAnomaly < rootFindingTolerance then
      .ok nextEccentricAnomaly
    else
      nrIterate eccentricity meanAnomalyShifted rootFindingTolerance fuel nextEccentricAnomaly

open Classical in
/-- `convertEllipticalMeanAnomalyToEccentricAnomaly` (lines 783-849).
The `assert(e >= 0.0 && e < 1.0 - 1.0e-11)` guard is modelled as
`InvalidEccentricity` per the specification (§4.2). -/
noncomputable def convertEllipticalMeanAnomalyToEccentricAnomaly
    (eccentricity meanAnomaly rootFindingTolerance : ℝ) (maximumIterations : ℕ) :
    Except ConversionError ℝ :=
  if 0 ≤ eccentricity ∧ eccentricity < 1 - 1e-11 then
    nrIterate eccentricity (shiftMeanAnomaly meanAnomaly) rootFindingTolerance
      maximumIterations
      (nrInitialGuess eccentricity (shiftMeanAnomaly meanAnomaly))
  else .error .invalidEccentricity

open Classical in
/-- The C idiom `(Real(0) < M) - (M < Real(0))`, i.e. the sign of `M`. -/
noncomputable def csign (x : ℝ) : ℝ :=
  (if 0 < x then (1 : ℝ) else 0) - (if x < 0 then (1 : ℝ) else 0)

open Classical in
/-- The bisection loop of lines 910-916: each iteration moves `E0` by
`±D` (sign of `M - (E0 - e sin E0)`) and halves `D`. -/
noncomputable def bsIterate (eccentricity meanAnomalyReduced : ℝ) :
    ℕ → ℝ → ℝ → ℝ
  | 0, e0, _ => e0
  | fuel + 1, e0, d =>
    bsIterate eccentricity meanAnomalyReduced fuel
      (e0 + d * csign (meanAnomalyReduced - (e0 - eccentricity * Real.sin e0)))
      (d * 0.5)

open Classical in
/-- The second reduction of the (already shifted) mean anomaly performed
inside the bisection variant (lines 893-899): `F = sign M`,
`M = fabs(M)/(2π)`, `M = (M - (int)M) * 2π * F`, plus `2π` if negative.
The cast `(int)M` truncates toward zero; its argument `fabs(M)/(2π)` is
nonnegative, so it is the floor. -/
noncomputable def bsReducedM (meanAnomaly : ℝ) : ℝ :=
  if (|shiftMeanAnomaly meanAnomaly| / (2 * π) -
        ((⌊|shiftMeanAnomaly meanAnomaly| / (2 * π)⌋ : ℤ) : ℝ)) * (2 * π) *
      csign (shiftMeanAnomaly meanAnomaly) < 0 then
    (|shiftMeanAnomaly meanAnomaly| / (2 * π) -
        ((⌊|shiftMeanAnomaly meanAnomaly| / (2 * π)⌋ : ℤ) : ℝ)) * (2 * π) *
      csign (shiftMeanAnomaly meanAnomaly) + 2 * π
  else
    (|shiftMeanAnomaly meanAnomaly| / (2 * π) -
        ((⌊|shiftMeanAnomaly meanAnomaly| / (2 * π)⌋ : ℤ) : ℝ)) * (2 * π) *
      csign (shiftMeanAnomaly meanAnomaly)

open Classical in
/-- The value computed by the bisection variant (lines 887-920), before
the precondition guard: after the reduction, `F` is reset to `1`, flipped
to `-1` with `M := 2π - M` when `M > π` (lines 901-906), and multiplies
the final loop value (line 918). -/
noncomputable def bsValue (eccentricity meanAnomaly : ℝ) (iterations : ℕ) : ℝ :=
  (if π < bsReducedM meanAnomaly then (-1 : ℝ) else 1) *
    bsIterate eccentricity
      (if π < bsReducedM meanAnomaly then 2 * π - bsReducedM meanAnomaly
       else bsReducedM meanAnomaly)
      iterations (π * 0.5) (π * 0.25)

open Classical in
/-- `convertEllipticalMeanAnomalyToEccentricAnomalyBS` (lines 870-921).
The `assert(e >= 0.0 && e < 1.0)` guard is modelled as
`InvalidEccentricity`; the body has no other exit. -/
noncomputable def convertEllipticalMeanAnomalyToEccentricAnomalyBS
    (eccentricity meanAnomaly : ℝ) (iterations : ℕ) :
    Except ConversionError ℝ :=
  if 0 ≤ eccentricity ∧ eccentricity < 1 then
    .ok (bsValue eccentricity meanAnomaly iterations)
  else .error .invalidEccentricity

/-! ### Cartesian ↔ Keplerian element conversion

`convertCartesianToKeplerianElements` (lines 78-283) and
`convertKeplerianToCartesianElements` (lines 315-403).

The input Cartesian state is a finite 6-tuple of reals (spec §3: "no
invariants beyond finiteness").  The Keplerian output can carry NaN
angles, so both the output of the forward conversion and both sides of
the reverse conversion use `FR` slots.

N.B. on the special-case branches of the forward conversion: the source
assigns `quiet_NaN` to the LOCAL variables `argumentOfPeriapsis` (lines
263, 277) and `longitudeOfAscendingNode` (lines 243, 278) after those
locals have already been copied into `keplerianElements`; the returned
vector is never updated from them again.  The returned slots therefore
hold: slot 3 — the argument of latitude when circular-inclined, else the
quadrant-corrected `acos` argument of periapsis; slot 4 — the true
longitude of periapsis when eccentric-equatorial, else the
quadrant-corrected `acos` node longitude; slot 5 — the true longitude
when circular-equatorial, else the quadrant-corrected `acos` true
anomaly.  The embedding reflects exactly this data flow. -/

/-- A finite Cartesian state `[x, y, z, vx, vy, vz]`. -/
structure Cart where
  x : ℝ
  y : ℝ
  z : ℝ
  vx : ℝ
  vy : ℝ
  vz : ℝ

/-- A 6-slot element vector whose entries may be non-finite. -/
@[ext]
structure Vec6 where
  c0 : FR
  c1 : FR
  c2 : FR
  c3 : FR
  c4 : FR
  c5 : FR

/-- `positionNormSquared` (lines 97-99). -/
def positionNormSquared (c : Cart) : ℝ := c.x * c.x + c.y * c.y + c.z * c.z

/-- `positionNorm` (line 100). -/
noncomputable def positionNorm (c : Cart) : ℝ := Real.sqrt (positionNormSquared c)

/-- `velocityNormSquared` (lines 107-109). -/
def velocityNormSquared (c : Cart) : ℝ := c.vx * c.vx + c.vy * c.vy + c.vz * c.vz

/-- x-component of the angular momentum `r × v` (line 114). -/
def hX (c : Cart) : ℝ := c.y * c.vz - c.z * c.vy

/-- y-component of the angular momentum (line 115). -/
def hY (c : Cart) : ℝ := c.z * c.vx - c.x * c.vz

/-- z-component of the angular momentum (line 116). -/
def hZ (c : Cart) : ℝ := c.x * c.vy - c.y * c.vx

/-- `angularMomentumNormSquared` (lines 117-119). -/
def angularMomentumNormSquared (c : Cart) : ℝ :=
  hX c * hX c + hY c * hY c + hZ c * hZ c

/-- `angularMomentumNorm` (line 120). -/
noncomputable def angularMomentumNorm (c : Cart) : ℝ :=
  Real.sqrt (angularMomentumNormSquared c)

/-- `positionDotVelocity` (lines 130-132). -/
def positionDotVelocity (c : Cart) : ℝ := c.x * c.vx + c.y * c.vy + c.z * c.vz

/-- `gravitationalParameterInverse` (line 88). -/
noncomputable def gravitationalParameterInverse (μ : ℝ) : FR := fdiv (fr 1) (fr μ)

/-- `positionNormInverse` (line 101). -/
noncomputable def positionNormInverse (c : Cart) : FR := fdiv (fr 1) (fr (positionNorm c))

/-- `eccentricityVectorFirsTermMultiplier` (lines 127-128; sic). -/
noncomputable def eccentricityVectorFirsTermMultiplier (c : Cart) (μ : ℝ) : FR :=
  fsub (fmul (fr (velocityNormSquared c)) (gravitationalParameterInverse μ))
    (positionNormInverse c)

/-- x-component of the eccentricity vector (lines 136-142). -/
noncomputable def eccVecX (c : Cart) (μ : ℝ) : FR :=
  fsub (fmul (eccentricityVectorFirsTermMultiplier c μ) (fr c.x))
    (fmul (fmul (fr (positionDotVelocity c)) (gravitationalParameterInverse μ)) (fr c.vx))

/-- y-component of the eccentricity vector. -/
noncomputable def eccVecY (c : Cart) (μ : ℝ) : FR :=
  fsub (fmul (eccentricityVectorFirsTermMultiplier c μ) (fr c.y))
    (fmul (fmul (fr (positionDotVelocity c)) (gravitationalParameterInverse μ)) (fr c.vy))

/-- z-component of the eccentricity vector. -/
noncomputable def eccVecZ (c : Cart) (μ : ℝ) : FR :=
  fsub (fmul (eccentricityVectorFirsTermMultiplier c μ) (fr c.z))
    (fmul (fmul (fr (positionDotVelocity c)) (gravitationalParameterInverse μ)) (fr c.vz))

/-- `eccentricityNormSquared` (lines 144-146). -/
noncomputable def eccentricityNormSquared (c : Cart) (μ : ℝ) : FR :=
  fadd (fadd (fmul (eccVecX c μ) (eccVecX c μ)) (fmul (eccVecY c μ) (eccVecY c μ)))
    (fmul (eccVecZ c μ) (eccVecZ c μ))

/-- `eccentricity` (line 148). -/
noncomputable def eccentricity (c : Cart) (μ : ℝ) : FR :=
  fsqrt (eccentricityNormSquared c μ)

/-- `specificTotalEnergy` (lines 152-153). -/
noncomputable def specificTotalEnergy (c : Cart) (μ : ℝ) : FR :=
  fsub (fr (0.5 * velocityNormSquared c)) (fdiv (fr μ) (fr (positionNorm c)))

/-- `semiMajorAxis` in the non-parabolic branch (line 160). -/
noncomputable def semiMajorAxisExpr (c : Cart) (μ : ℝ) : FR :=
  fdiv (fr (-0.5 * μ)) (specificTotalEnergy c μ)

/-- `inclination` (line 173): `acos` of the z-component of the angular
momentum unit vector. -/
noncomputable def inclination (c : Cart) : FR :=
  facos (fdiv (fr (hZ c)) (fr (angularMomentumNorm c)))

/-- x-component of the ascending node vector (line 178). -/
def nX (c : Cart) : ℝ := -hY c

/-- y-component of the ascending node vector. -/
def nY (c : Cart) : ℝ := hX c

/-- `ascendingNodeVectorNormSquared` (lines 180-183), including the
source's `0.0 * 0.0` third term. -/
def ascendingNodeVectorNormSquared (c : Cart) : ℝ :=
  nX c * nX c + nY c * nY c + 0 * 0

/-- `ascendingNodeVectorNorm` (line 185). -/
noncomputable def ascendingNodeVectorNorm (c : Cart) : ℝ :=
  Real.sqrt (ascendingNodeVectorNormSquared c)

open Classical in
/-- `longitudeOfAscendingNode` (lines 193-198): `acos` of the x-component
of the node unit vector, reflected to `2π - ·` when `n_y < 0`. -/
noncomputable def longitudeOfAscendingNode (c : Cart) : FR :=
  let raw := facos (fdiv (fr (nX c)) (fr (ascendingNodeVectorNorm c)))
  if nY c < 0 then fsub (fr (2 * π)) raw else raw

/-- `ascendingNodeVectorDotEccentricityVector` (lines 203-206), including
the source's `0.0 * eccentricityVector[2]` third term. -/
noncomputable def nDotEcc (c : Cart) (μ : ℝ) : FR :=
  fadd (fadd (fmul (fr (nX c)) (eccVecX c μ)) (fmul (fr (nY c)) (eccVecY c μ)))
    (fmul (fr 0) (eccVecZ c μ))

open Classical in
/-- `argumentOfPeriapsis` (lines 208-214), reflected when the z-component
of the eccentricity vector is negative. -/
noncomputable def argumentOfPeriapsis (c : Cart) (μ : ℝ) : FR :=
  let raw := facos (fdiv (nDotEcc c μ)
    (fmul (fr (ascendingNodeVectorNorm c)) (eccentricity c μ)))
  if fltP (eccVecZ c μ) 0 then fsub (fr (2 * π)) raw else raw

/-- `eccentricityVectorDotPosition` (lines 219-221). -/
noncomputable def eccDotPos (c : Cart) (μ : ℝ) : FR :=
  fadd (fadd (fmul (eccVecX c μ) (fr c.x)) (fmul (eccVecY c μ) (fr c.y)))
    (fmul (eccVecZ c μ) (fr c.z))

open Classical in
/-- `trueAnomaly` (lines 223-228), reflected when `r·v < 0`. -/
noncomputable def trueAnomaly (c : Cart) (μ : ℝ) : FR :=
  let raw := facos (fdiv (eccDotPos c μ)
    (fmul (eccentricity c μ) (fr (positionNorm c))))
  if positionDotVelocity c < 0 then fsub (fr (2 * π)) raw else raw

open Classical in
/-- `trueLongitudeOfPeriapsis` (lines 233-238).  The reflection condition
of line 235 compares `eccentricityVector[1]` against TOLERANCE (not
against `0.0`); the embedding reproduces this faithfully. -/
noncomputable def trueLongitudeOfPeriapsis (c : Cart) (μ tolerance : ℝ) : FR :=
  let raw := facos (fdiv (eccVecX c μ) (eccentricity c μ))
  if fltP (eccVecY c μ) tolerance then fsub (fr (2 * π)) raw else raw

/-- `ascendingNodeVectorDotPosition` (lines 248-250), including the
source's `0.0 * position[2]` third term. -/
def nDotPos (c : Cart) : ℝ := nX c * c.x + nY c * c.y + 0 * c.z

open Classical in
/-- `argumentOfLatitude` (lines 252-258), reflected when `z < 0`. -/
noncomputable def argumentOfLatitude (c : Cart) : FR :=
  let raw := facos (fdiv (fr (nDotPos c))
    (fr (ascendingNodeVectorNorm c * positionNorm c)))
  if c.z < 0 then fsub (fr (2 * π)) raw else raw

open Classical in
/-- `trueLongitude` (lines 268-272), reflected when `y < 0`. -/
noncomputable def trueLongitude (c : Cart) : FR :=
  let raw := facos (fdiv (fr c.x) (fr (positionNorm c)))
  if c.y < 0 then fsub (fr (2 * π)) raw else raw

/-- Condition of line 158: `fabs(eccentricity - 1.0) > tolerance`. -/
def nonParabolicCond (c : Cart) (μ tolerance : ℝ) : Prop :=
  fgtP (fabsF (fsub (eccentricity c μ) (fr 1))) tolerance

/-- `fabs(eccentricity) < tolerance` (circular). -/
def circularCond (c : Cart) (μ tolerance : ℝ) : Prop :=
  fltP (fabsF (eccentricity c μ)) tolerance

/-- `fabs(eccentricity) > tolerance` (eccentric). -/
def eccentricCond (c : Cart) (μ tolerance : ℝ) : Prop :=
  fgtP (fabsF (eccentricity c μ)) tolerance

/-- `fabs(inclination) < tolerance` (equatorial). -/
def equatorialCond (c : Cart) (tolerance : ℝ) : Prop :=
  fltP (fabsF (inclination c)) tolerance

/-- `fabs(inclination) > tolerance` (inclined). -/
def inclinedCond (c : Cart) (tolerance : ℝ) : Prop :=
  fgtP (fabsF (inclination c)) tolerance

open Classical in
/-- `convertCartesianToKeplerianElements` (lines 78-283).  Slots:
semi-major axis (or semi-latus rectum when parabolic within tolerance),
eccentricity, inclination, argument of periapsis (argument of latitude
when circular-inclined), longitude of ascending node (true longitude of
periapsis when eccentric-equatorial), true anomaly (true longitude when
circular-equatorial); see the data-flow note above on the dead local NaN
assignments of lines 243, 263 and 277-278. -/
noncomputable def convertCartesianToKeplerianElements (c : Cart) (μ tolerance : ℝ) :
    Vec6 where
  c0 :=
    if nonParabolicCond c μ tolerance then semiMajorAxisExpr c μ
    else fmul (fr (angularMomentumNormSquared c)) (gravitationalParameterInverse μ)
  c1 := eccentricity c μ
  c2 := inclination c
  c3 :=
    if circularCond c μ tolerance ∧ inclinedCond c tolerance then argumentOfLatitude c
    else argumentOfPeriapsis c μ
  c4 :=
    if eccentricCond c μ tolerance ∧ equatorialCond c tolerance then
      trueLongitudeOfPeriapsis c μ tolerance
    else longitudeOfAscendingNode c
  c5 :=
    if circularCond c μ tolerance ∧ equatorialCond c tolerance then trueLongitude c
    else trueAnomaly c μ

open Classical in
/-- `semiLatusRectum` of the reverse conversion (lines 339-350):
`a (1 - e²)` when non-parabolic within tolerance, else slot 0 itself. -/
noncomputable def semiLatusRectumRev (k : Vec6) (tolerance : ℝ) : FR :=
  if fgtP (fabsF (fsub k.c1 (fr 1))) tolerance then
    fmul k.c0 (fsub (fr 1) (fmul k.c1 k.c1))
  else k.c0

/-- `radiusMagnitude` (line 353). -/
noncomputable def radiusMagnitudeRev (k : Vec6) (tolerance : ℝ) : FR :=
  fdiv (semiLatusRectumRev k tolerance) (fadd (fr 1) (fmul k.c1 (fcos k.c5)))

open Classical in
/-- `convertKeplerianToCartesianElements` (lines 315-403). -/
noncomputable def convertKeplerianToCartesianElements (k : Vec6) (μ tolerance : ℝ) :
    Vec6 :=
  let cosI := fcos k.c2
  let sinI := fsin k.c2
  let cosAop := fcos k.c3
  let sinAop := fsin k.c3
  let cosRaan := fcos k.c4
  let sinRaan := fsin k.c4
  let cosNu := fcos k.c5
  let sinNu := fsin k.c5
  let slr := semiLatusRectumRev k tolerance
  let rm := radiusMagnitudeRev k tolerance
  let xPosPerifocal := fmul rm cosNu
  let yPosPerifocal := fmul rm sinNu
  let vScale := fsqrt (fdiv (fr μ) slr)
  let xVelPerifocal := fmul (fneg vScale) sinNu
  let yVelPerifocal := fmul vScale (fadd k.c1 cosNu)
  let r11 := fsub (fmul cosRaan cosAop) (fmul (fmul sinRaan sinAop) cosI)
  let r12 := fsub (fmul (fneg cosRaan) sinAop) (fmul (fmul sinRaan cosAop) cosI)
  let r21 := fadd (fmul sinRaan cosAop) (fmul (fmul cosRaan sinAop) cosI)
  let r22 := fadd (fmul (fneg sinRaan) sinAop) (fmul (fmul cosRaan cosAop) cosI)
  let r31 := fmul sinAop sinI
  let r32 := fmul cosAop sinI
  { c0 := fadd (fmul r11 xPosPerifocal) (fmul r12 yPosPerifocal)
    c1 := fadd (fmul r21 xPosPerifocal) (fmul r22 yPosPerifocal)
    c2 := fadd (fmul r31 xPosPerifocal) (fmul r32 yPosPerifocal)
    c3 := fadd (fmul r11 xVelPerifocal) (fmul r12 yVelPerifocal)
    c4 := fadd (fmul r21 xVelPerifocal) (fmul r22 yVelPerifocal)
    c5 := fadd (fmul r31 xVelPerifocal) (fmul r32 yVelPerifocal) }

/-! ### Helper lemmas -/

theorem cfmod_eq_fract {M b : ℝ} (hb : 0 < b) (h0 : 0 ≤ M / b) :
    cfmod M b = b * Int.fract (M / b) := by
  unfold cfmod ctrunc
  rw [if_pos h0, Int.fract]
  have hM : b * (M / b) = M := by field_simp
  rw [mul_sub, hM]

theorem shiftMeanAnomaly_eq (M : ℝ) :
    shiftMeanAnomaly M = 2 * π * Int.fract (M / (2 * π)) := by
  have hπ : (0:ℝ) < 2 * π := by positivity
  have hM : 2 * π * (M / (2 * π)) = M := by field_simp
  set t := M / (2 * π) with ht
  unfold shiftMeanAnomaly cfmod ctrunc
  rw [← ht]
  by_cases h0 : 0 ≤ t
  · rw [if_pos h0]
    have hc : M - 2 * π * ((⌊t⌋ : ℤ) : ℝ) = 2 * π * Int.fract t := by
      rw [Int.fract, mul_sub, hM]
    rw [hc, if_neg (not_lt.mpr (mul_nonneg hπ.le (Int.fract_nonneg t)))]
  · rw [if_neg h0]
    have hfr : Int.fract t = t - ⌊t⌋ := rfl
    by_cases hz : Int.fract t = 0
    · have htz : t = ((⌊t⌋ : ℤ) : ℝ) := by rw [hfr] at hz; linarith
      have hceil : (⌈t⌉ : ℤ) = ⌊t⌋ := by rw [htz, Int.ceil_intCast, Int.floor_intCast]
      have hd : t - ((⌊t⌋ : ℤ) : ℝ) = 0 := by rw [← hfr, hz]
      have hc : M - 2 * π * ((⌈t⌉ : ℤ) : ℝ) = 0 := by
        rw [hceil, ← hM]
        calc 2 * π * t - 2 * π * ((⌊t⌋ : ℤ) : ℝ) = 2 * π * (t - ((⌊t⌋ : ℤ) : ℝ)) := by ring
        _ = 0 := by rw [hd]; ring
      rw [hc, hz, if_neg (lt_irrefl 0)]; ring
    · have hne : t ≠ ((⌊t⌋ : ℤ) : ℝ) := by
        intro h
        exact hz (by rw [hfr, ← h]; ring)
      have hlt : (⌊t⌋ : ℤ) < ⌈t⌉ := by
        by_contra hcon
        push_neg at hcon
        have h1 : ((⌈t⌉ : ℤ) : ℝ) ≤ ((⌊t⌋ : ℤ) : ℝ) := by exact_mod_cast hcon
        have h2 := Int.le_ceil t
        have h3 := Int.floor_le t
        exact hne (le_antisymm (by linarith) h3)
      have hceil : (⌈t⌉ : ℤ) = ⌊t⌋ + 1 :=
        le_antisymm (Int.ceil_le_floor_add_one t) hlt
      have hc : M - 2 * π * ((⌈t⌉ : ℤ) : ℝ) = 2 * π * Int.fract t - 2 * π := by
        rw [hceil, Int.fract]
        push_cast
        rw [← hM]; ring
      have hneg : 2 * π * Int.fract t - 2 * π < 0 := by
        have := Int.fract_lt_one t
        nlinarith
      rw [hc, if_pos hneg]; ring

theorem shiftMeanAnomaly_nonneg (M : ℝ) : 0 ≤ shiftMeanAnomaly M := by
  rw [shiftMeanAnomaly_eq]
  have := Int.fract_nonneg (M / (2 * π))
  positivity

theorem shiftMeanAnomaly_lt (M : ℝ) : shiftMeanAnomaly M < 2 * π := by
  rw [shiftMeanAnomaly_eq]
  have h1 := Int.fract_lt_one (M / (2 * π))
  have hπ : (0:ℝ) < 2 * π := by positivity
  nlinarith

theorem shiftMeanAnomaly_add (M : ℝ) (k : ℤ) :
    shiftMeanAnomaly (M + 2 * π * k) = shiftMeanAnomaly M := by
  rw [shiftMeanAnomaly_eq, shiftMeanAnomaly_eq]
  have hπ : (π : ℝ) ≠ 0 := Real.pi_ne_zero
  have h : (M + 2 * π * k) / (2 * π) = M / (2 * π) + (k : ℝ) := by
    field_simp
    ring
  rw [h, Int.fract_add_int]

theorem shiftMeanAnomaly_of_Ico {M : ℝ} (h0 : 0 ≤ M) (h1 : M < 2 * π) :
    shiftMeanAnomaly M = M := by
  rw [shiftMeanAnomaly_eq]
  have hπ : (0:ℝ) < 2 * π := by positivity
  have hfr : Int.fract (M / (2 * π)) = M / (2 * π) :=
    Int.fract_eq_self.mpr ⟨by positivity, (div_lt_one hπ).mpr h1⟩
  rw [hfr]
  field_simp

theorem csign_abs_le (x : ℝ) : |csign x| ≤ 1 := by
  unfold csign
  split_ifs <;> norm_num

theorem csign_of_pos {x : ℝ} (hx : 0 < x) : csign x = 1 := by
  unfold csign
  rw [if_pos hx, if_neg (not_lt.mpr hx.le)]
  norm_num

theorem bsIterate_bound (e M : ℝ) :
    ∀ (n : ℕ) (E D : ℝ), 0 < D → |E - π / 2| ≤ π / 2 - 2 * D →
      |bsIterate e M n E D - π / 2| < π / 2 := by
  intro n
  induction n with
  | zero =>
    intro E D hD hE
    unfold bsIterate
    calc |E - π / 2| ≤ π / 2 - 2 * D := hE
    _ < π / 2 := by linarith
  | succ m ih =>
    intro E D hD hE
    unfold bsIterate
    apply ih
    · linarith
    · have h1 : |D * csign (M - (E - e * Real.sin E))| ≤ D := by
        rw [abs_mul, abs_of_pos hD]
        have := csign_abs_le (M - (E - e * Real.sin E))
        nlinarith
      calc |E + D * csign (M - (E - e * Real.sin E)) - π / 2|
          ≤ |E - π / 2| + |D * csign (M - (E - e * Real.sin E))| := by
            have := abs_add (E - π / 2) (D * csign (M - (E - e * Real.sin E)))
            have heq : E + D * csign (M - (E - e * Real.sin E)) - π / 2
                = (E - π / 2) + D * csign (M - (E - e * Real.sin E)) := by ring
            rw [heq]
            exact this
      _ ≤ (π / 2 - 2 * D) + D := by linarith
      _ = π / 2 - 2 * (D * 0.5) := by ring

theorem bsIterate_mem_Ioo (e M : ℝ) (n : ℕ) :
    0 < bsIterate e M n (π * 0.5) (π * 0.25) ∧
      bsIterate e M n (π * 0.5) (π * 0.25) < π := by
  have h := bsIterate_bound e M n (π * 0.5) (π * 0.25)
    (by positivity)
    (by
      have : π * 0.5 - π / 2 = 0 := by ring
      rw [this]
      norm_num
      linarith)
  rw [abs_lt] at h
  constructor <;> [linarith [h.1]; linarith [h.2]]

/-- Evaluation of the inner reduction when the input mean anomaly already
lies in `(π, 2π)`: it is left unchanged. -/
theorem bsReducedM_of_upper {M : ℝ} (h0 : π < M) (h1 : M < 2 * π) :
    bsReducedM M = M := by
  have hM0 : 0 < M := lt_trans Real.pi_pos h0
  have hπ : (0:ℝ) < 2 * π := by positivity
  have hsh : shiftMeanAnomaly M = M := shiftMeanAnomaly_of_Ico hM0.le h1
  have hfloor : ⌊|M| / (2 * π)⌋ = 0 := by
    rw [Int.floor_eq_zero_iff]
    constructor
    · positivity
    · rw [abs_of_pos hM0]
      exact (div_lt_one hπ).mpr h1
  have hmb : (|M| / (2 * π) - ((0 : ℤ) : ℝ)) * (2 * π) * csign M = M := by
    rw [csign_of_pos hM0, abs_of_pos hM0]
    field_simp
  unfold bsReducedM
  rw [hsh, hfloor, hmb, if_neg (not_lt.mpr hM0.le)]

/-- C9: for eccentricities in `[0, 1)`, any mean anomaly and any
iteration budget, the bisection solver returns a value: the loop runs
exactly the given number of iterations (the fuel argument of
`bsIterate`) and the function has no failure exit besides the
eccentricity precondition guard. -/
theorem bs_terminates_without_failure (e M : ℝ) (n : ℕ)
    (he0 : 0 ≤ e) (he1 : e < 1) :
    convertEllipticalMeanAnomalyToEccentricAnomalyBS e M n
      = Except.ok (bsValue e M n) := by
  unfold convertEllipticalMeanAnomalyToEccentricAnomalyBS
  rw [if_pos ⟨he0, he1⟩]

/-- C9 witness. -/
theorem bs_terminates_without_failure_witness :
    (0:ℝ) ≤ 1/2 ∧ (1:ℝ)/2 < 1 ∧
      convertEllipticalMeanAnomalyToEccentricAnomalyBS (1/2) 1 100
        = Except.ok (bsValue (1/2) 1 100) :=
  ⟨by norm_num, by norm_num,
    bs_terminates_without_failure (1/2) 1 100 (by norm_num) (by norm_num)⟩

/-- C10: the bisection solver's returned value lies in `[-π, π]` (the
search runs over `(0, π)` and the final sign reflection maps it into
`(-π, π)`), and for mean anomalies in `(π, 2π)` the returned value is
negative, unlike the `[0, 2π)`-ranged Newton-Raphson variant. -/
theorem bs_value_range (e M : ℝ) (n : ℕ)
    (he0 : 0 ≤ e) (he1 : e < 1) (_hn : 1 ≤ n) :
    convertEllipticalMeanAnomalyToEccentricAnomalyBS e M n
        = Except.ok (bsValue e M n)
      ∧ |bsValue e M n| ≤ π
      ∧ (π < M → M < 2 * π → bsValue e M n < 0) := by
  have hiter := fun md => bsIterate_mem_Ioo e md n
  refine ⟨bs_terminates_without_failure e M n he0 he1, ?_, ?_⟩
  · unfold bsValue
    by_cases hc : π < bsReducedM M
    · rw [if_pos hc, if_pos hc]
      have h := hiter (2 * π - bsReducedM M)
      rw [abs_mul, abs_neg, abs_one, one_mul,
        abs_of_pos h.1]
      exact h.2.le
    · rw [if_neg hc, if_neg hc]
      have h := hiter (bsReducedM M)
      rw [abs_mul, abs_one, one_mul, abs_of_pos h.1]
      exact h.2.le
  · intro h0 h1
    unfold bsValue
    rw [bsReducedM_of_upper h0 h1, if_pos h0, if_pos h0]
    have h := hiter (2 * π - M)
    nlinarith [h.1]

/-- C10 witness. -/
theorem bs_value_range_witness :
    (0:ℝ) ≤ 1/2 ∧ (1:ℝ)/2 < 1 ∧ 1 ≤ 100 ∧
      (convertEllipticalMeanAnomalyToEccentricAnomalyBS (1/2) 4 100
          = Except.ok (bsValue (1/2) 4 100)
        ∧ |bsValue (1/2) 4 100| ≤ π
        ∧ (π < 4 → (4:ℝ) < 2 * π → bsValue (1/2) 4 100 < 0)) :=
  ⟨by norm_num, by norm_num, by norm_num,
    bs_value_range (1/2) 4 100 (by norm_num) (by norm_num) (by norm_num)⟩

/-- C5: the dispatch wrappers `convertTrueAnomalyToEccentricAnomaly` and
`convertEccentricAnomalyToMeanAnomaly` succeed at eccentricity exactly 0
(returning the elliptical-branch result) and fail with
`ParabolicNotSupported` for every eccentricity within machine epsilon of
`1.0` (for any machine epsilon in `(0, 1)`). -/
theorem dispatch_zero_ok_parabolic_error (ta ea eps : ℝ)
    (_heps0 : 0 < eps) (heps1 : eps < 1) :
    convertTrueAnomalyToEccentricAnomaly ta 0 eps
        = Except.ok (convertTrueAnomalyToEllipticalEccentricAnomaly ta 0)
      ∧ convertEccentricAnomalyToMeanAnomaly ea 0 eps
        = Except.ok (convertEllipticalEccentricAnomalyToMeanAnomaly ea 0)
      ∧ ∀ e : ℝ, |e - 1| ≤ eps →
          convertTrueAnomalyToEccentricAnomaly ta e eps
              = Except.error ConversionError.parabolicNotSupported
            ∧ convertEccentricAnomalyToMeanAnomaly ea e eps
              = Except.error ConversionError.parabolicNotSupported := by
  have habs : |(0:ℝ) - 1| = 1 := by norm_num
  have hno : ¬ (|(0:ℝ) - 1| ≤ eps) := by rw [habs]; linarith
  refine ⟨?_, ?_, ?_⟩
  · unfold convertTrueAnomalyToEccentricAnomaly
    rw [if_neg (by norm_num : ¬ ((0:ℝ) < 0)), if_neg hno,
      if_pos (by norm_num : (0:ℝ) ≤ 0 ∧ (0:ℝ) < 1)]
  · unfold convertEccentricAnomalyToMeanAnomaly
    rw [if_neg (by norm_num : ¬ ((0:ℝ) < 0)), if_neg hno,
      if_pos (by norm_num : (0:ℝ) ≤ 0 ∧ (0:ℝ) < 1)]
  · intro e he
    have he0 : ¬ (e < 0) := by
      rw [abs_le] at he
      push_neg
      linarith [he.1]
    constructor
    · unfold convertTrueAnomalyToEccentricAnomaly
      rw [if_neg he0, if_pos he]
    · unfold convertEccentricAnomalyToMeanAnomaly
      rw [if_neg he0, if_pos he]

/-- C5 witness. -/
theorem dispatch_zero_ok_parabolic_error_witness :
    (0:ℝ) < 1/2 ∧ (1:ℝ)/2 < 1 ∧
      (convertTrueAnomalyToEccentricAnomaly 0 0 (1/2)
          = Except.ok (convertTrueAnomalyToEllipticalEccentricAnomaly 0 0)
        ∧ convertEccentricAnomalyToMeanAnomaly 0 0 (1/2)
          = Except.ok (convertEllipticalEccentricAnomalyToMeanAnomaly 0 0)
        ∧ ∀ e : ℝ, |e - 1| ≤ 1/2 →
            convertTrueAnomalyToEccentricAnomaly 0 e (1/2)
                = Except.error ConversionError.parabolicNotSupported
              ∧ convertEccentricAnomalyToMeanAnomaly 0 e (1/2)
                = Except.error ConversionError.parabolicNotSupported) :=
  ⟨by norm_num, by norm_num,
    dispatch_zero_ok_parabolic_error 0 0 (1/2) (by norm_num) (by norm_num)⟩

/-- C6: the Newton-Raphson mean-to-eccentric solver reduces the mean
anomaly into `[0, 2π)` (congruent to `M` modulo `2π`), starts from
`M + e` when the shifted anomaly is at most `π` and from `M - e` when it
exceeds `π`, and its result depends on `M` only through `M` modulo `2π`. -/
theorem nr_shift_guess_periodic (e M tol : ℝ) (N : ℕ) (k : ℤ)
    (_he0 : 0 ≤ e) (_he1 : e < 1 - 1e-11) (_htol : 0 < tol) :
    (0 ≤ shiftMeanAnomaly M ∧ shiftMeanAnomaly M < 2 * π)
      ∧ shiftMeanAnomaly M = M - 2 * π * ((⌊M / (2 * π)⌋ : ℤ) : ℝ)
      ∧ (shiftMeanAnomaly M ≤ π →
          nrInitialGuess e (shiftMeanAnomaly M) = shiftMeanAnomaly M + e)
      ∧ (π < shiftMeanAnomaly M →
          nrInitialGuess e (shiftMeanAnomaly M) = shiftMeanAnomaly M - e)
      ∧ convertEllipticalMeanAnomalyToEccentricAnomaly e (M + 2 * π * k) tol N
          = convertEllipticalMeanAnomalyToEccentricAnomaly e M tol N := by
  refine ⟨⟨shiftMeanAnomaly_nonneg M, shiftMeanAnomaly_lt M⟩, ?_, ?_, ?_, ?_⟩
  · rw [shiftMeanAnomaly_eq, Int.fract]
    have hM : 2 * π * (M / (2 * π)) = M := by
      have : (π : ℝ) ≠ 0 := Real.pi_ne_zero
      field_simp
    rw [mul_sub, hM]
  · intro h
    unfold nrInitialGuess
    rw [if_neg (not_lt.mpr h)]
  · intro h
    unfold nrInitialGuess
    rw [if_pos h]
  · unfold convertEllipticalMeanAnomalyToEccentricAnomaly
    rw [shiftMeanAnomaly_add]

/-- C6 witness. -/
theorem nr_shift_guess_periodic_witness :
    (0:ℝ) ≤ 1/2 ∧ (1:ℝ)/2 < 1 - 1e-11 ∧ (0:ℝ) < 1/1000 ∧
      ((0 ≤ shiftMeanAnomaly 5 ∧ shiftMeanAnomaly 5 < 2 * π)
        ∧ shiftMeanAnomaly 5 = 5 - 2 * π * ((⌊(5:ℝ) / (2 * π)⌋ : ℤ) : ℝ)
        ∧ (shiftMeanAnomaly 5 ≤ π →
            nrInitialGuess (1/2) (shiftMeanAnomaly 5) = shiftMeanAnomaly 5 + 1/2)
        ∧ (π < shiftMeanAnomaly 5 →
            nrInitialGuess (1/2) (shiftMeanAnomaly 5) = shiftMeanAnomaly 5 - 1/2)
        ∧ convertEllipticalMeanAnomalyToEccentricAnomaly (1/2) (5 + 2 * π * (3:ℤ)) (1/1000) 100
            = convertEllipticalMeanAnomalyToEccentricAnomaly (1/2) 5 (1/1000) 100) :=
  ⟨by norm_num, by norm_num, by norm_num,
    nr_shift_guess_periodic (1/2) 5 (1/1000) 100 3 (by norm_num) (by norm_num) (by norm_num)⟩

theorem sin_three_pi_div_two : Real.sin (3 * π / 2) = -1 := by
  have h : (3 : ℝ) * π / 2 = π + π / 2 := by ring
  rw [h, Real.sin_add, Real.sin_pi, Real.cos_pi, Real.sin_pi_div_two]
  ring

theorem cos_three_pi_div_two : Real.cos (3 * π / 2) = 0 := by
  have h : (3 : ℝ) * π / 2 = π + π / 2 := by ring
  rw [h, Real.cos_add, Real.cos_pi, Real.cos_pi_div_two, Real.sin_pi, Real.sin_pi_div_two]
  ring

theorem nrIterate_first_step (e Ms tol : ℝ) (fuel : ℕ) (E0 : ℝ)
    (hstep : E0 - (E0 - computeEllipticalKeplerFunction E0 e Ms /
        computeFirstDerivativeEllipticalKeplerFunction E0 e) < tol) :
    nrIterate e Ms tol (fuel + 1) E0
      = Except.ok (E0 - computeEllipticalKeplerFunction E0 e Ms /
          computeFirstDerivativeEllipticalKeplerFunction E0 e) := by
  unfold nrIterate
  rw [if_pos hstep]

/-- C3: the Newton-Raphson solver accepts an iterate as soon as the
SIGNED difference `E_n - E_{n+1}` is below the tolerance (line 841 has no
`fabs`), so at `e = 9/10`, `M = 3π/2` it returns after the very first
iteration a value whose distance from the previous iterate exceeds the
tolerance `1/1000` by two orders of magnitude; the claim that a value is
returned only when `|E_n - E_{n+1}|` is below the tolerance is false of
the code. -/
theorem nr_stops_on_signed_difference :
    convertEllipticalMeanAnomalyToEccentricAnomaly (9/10) (3 * π / 2) (1/1000) 100
        = Except.ok ((3 * π / 2 - 9/10) +
            9/10 * (1 - Real.cos (9/10)) / (1 + 9/10 * Real.sin (9/10)))
      ∧ 1/1000
          < |(3 * π / 2 - 9/10) -
              ((3 * π / 2 - 9/10) +
                9/10 * (1 - Real.cos (9/10)) / (1 + 9/10 * Real.sin (9/10)))| := by
  have hπ := Real.pi_pos
  have hπ3 := Real.pi_gt_three
  have hs : shiftMeanAnomaly (3 * π / 2) = 3 * π / 2 :=
    shiftMeanAnomaly_of_Ico (by positivity) (by linarith)
  have hginit : nrInitialGuess (9/10) (3 * π / 2) = 3 * π / 2 - 9/10 := by
    unfold nrInitialGuess
    rw [if_pos (by linarith)]
  have hsinE0 : Real.sin (3 * π / 2 - 9/10) = -Real.cos (9/10) := by
    rw [Real.sin_sub, sin_three_pi_div_two, cos_three_pi_div_two]
    ring
  have hcosE0 : Real.cos (3 * π / 2 - 9/10) = -Real.sin (9/10) := by
    rw [Real.cos_sub, sin_three_pi_div_two, cos_three_pi_div_two]
    ring
  have hsin9 : 0 < Real.sin (9/10) :=
    Real.sin_pos_of_pos_of_lt_pi (by norm_num) (by linarith)
  have hsin9' : Real.sin (9/10) ≤ 1 := Real.sin_le_one _
  have hcos9 : Real.cos (9/10) ≤ 419/500 := by
    have h1 : Real.cos (9/10) ≤ 1 - 2/π^2 * (9/10)^2 :=
      Real.cos_le_one_sub_mul_cos_sq (by rw [abs_of_pos (by norm_num : (0:ℝ) < 9/10)]; linarith)
    have hπ2 : π^2 < 10 := by nlinarith [Real.pi_lt_d2]
    have hp2 : (0:ℝ) < π^2 := by positivity
    have h2 : (81:ℝ)/500 ≤ 2/π^2 * (9/10)^2 := by
      rw [div_mul_eq_mul_div, le_div_iff₀ hp2]
      nlinarith
    linarith
  have hfd : (0:ℝ) < 1 + 9/10 * Real.sin (9/10) := by nlinarith
  have hf : computeEllipticalKeplerFunction (3 * π / 2 - 9/10) (9/10) (3 * π / 2)
      = -(9/10 * (1 - Real.cos (9/10))) := by
    unfold computeEllipticalKeplerFunction
    rw [hsinE0]
    ring
  have hfd2 : computeFirstDerivativeEllipticalKeplerFunction (3 * π / 2 - 9/10) (9/10)
      = 1 + 9/10 * Real.sin (9/10) := by
    unfold computeFirstDerivativeEllipticalKeplerFunction
    rw [hcosE0]
    ring
  have hwpos : 0 < 9/10 * (1 - Real.cos (9/10)) / (1 + 9/10 * Real.sin (9/10)) :=
    div_pos (by nlinarith) hfd
  have hE1 : (3 * π / 2 - 9/10) -
      computeEllipticalKeplerFunction (3 * π / 2 - 9/10) (9/10) (3 * π / 2) /
        computeFirstDerivativeEllipticalKeplerFunction (3 * π / 2 - 9/10) (9/10)
      = (3 * π / 2 - 9/10) +
        9/10 * (1 - Real.cos (9/10)) / (1 + 9/10 * Real.sin (9/10)) := by
    rw [hf, hfd2]
    ring
  constructor
  · unfold convertEllipticalMeanAnomalyToEccentricAnomaly
    rw [if_pos (by norm_num : (0:ℝ) ≤ 9/10 ∧ (9:ℝ)/10 < 1 - 1e-11), hs, hginit,
      (by norm_num : (100:ℕ) = 99 + 1),
      nrIterate_first_step _ _ _ _ _ (by rw [hE1]; linarith), hE1]
  · rw [show (3 * π / 2 - 9/10) -
        ((3 * π / 2 - 9/10) +
          9/10 * (1 - Real.cos (9/10)) / (1 + 9/10 * Real.sin (9/10)))
        = -(9/10 * (1 - Real.cos (9/10)) / (1 + 9/10 * Real.sin (9/10))) from by ring,
      abs_neg, abs_of_pos hwpos, lt_div_iff₀ hfd]
    nlinarith

theorem arctan_sqrt_three : Real.arctan (Real.sqrt 3) = π / 3 := by
  have hπ := Real.pi_pos
  have h1 : Real.tan (π / 3) = Real.sqrt 3 := by
    rw [Real.tan_eq_sin_div_cos, Real.sin_pi_div_three, Real.cos_pi_div_three]
    field_simp
  rw [← h1, Real.arctan_tan (by linarith) (by linarith)]

theorem sqrt_three_lt_two : Real.sqrt 3 < 2 := by
  nlinarith [Real.sq_sqrt (by norm_num : (0:ℝ) ≤ 3), Real.sqrt_nonneg 3]

/-- The closed-form true-to-eccentric conversion at `ν = 3π/2`,
`e = 1/2` evaluates to `-π/3`. -/
theorem trueToEcc_at_three_pi_div_two :
    convertTrueAnomalyToEllipticalEccentricAnomaly (3 * π / 2) (1/2) = -(π/3) := by
  unfold convertTrueAnomalyToEllipticalEccentricAnomaly atan2
  rw [sin_three_pi_div_two, cos_three_pi_div_two]
  have hx : ((1:ℝ)/2 + 0) / (1 + 1/2 * 0) = 1/2 := by norm_num
  have hs34 : Real.sqrt (1 - (1/2)^2) = Real.sqrt 3 / 2 := by
    rw [show (1 - (1/2)^2 : ℝ) = 3 / 2^2 by norm_num,
      Real.sqrt_div' 3 (by norm_num)]
    norm_num
    rw [show Real.sqrt 4 = 2 from by
      rw [show (4:ℝ) = 2^2 by norm_num, Real.sqrt_sq (by norm_num : (0:ℝ) ≤ 2)]]
  rw [hx, if_pos (by norm_num : (0:ℝ) < 1/2), hs34]
  have harg : Real.sqrt 3 / 2 * -1 / (1 + 1/2 * 0) / (1/2) = -(Real.sqrt 3) := by
    field_simp
  rw [harg, Real.arctan_neg, arctan_sqrt_three]

/-- C4: composing true-to-eccentric, eccentric-to-mean and the
Newton-Raphson mean-to-eccentric solver at `e = 1/2`, `ν = 3π/2` does
NOT return `trueToEccentric(ν, e)` to within `1e-10`: the mean anomaly
is negative, the shift maps it into `(π, 2π)`, and the solver both
re-ranges the solution (off by `2π` from the `atan2`-ranged value) and
stops after a single Newton step because the signed-difference test of
line 841 accepts immediately; the gap exceeds `6`. -/
theorem anomaly_roundtrip_fails :
    ∃ y : ℝ,
      convertEllipticalMeanAnomalyToEccentricAnomaly (1/2)
          (convertEllipticalEccentricAnomalyToMeanAnomaly
            (convertTrueAnomalyToEllipticalEccentricAnomaly (3 * π / 2) (1/2)) (1/2))
          (1/10^19) 100 = Except.ok y
        ∧ 1/10^10 < |y - convertTrueAnomalyToEllipticalEccentricAnomaly (3 * π / 2) (1/2)| := by
  have hπ := Real.pi_pos
  have hπ3 := Real.pi_gt_three
  have hs3 := sqrt_three_lt_two
  have hs3' := Real.sqrt_nonneg 3
  rw [trueToEcc_at_three_pi_div_two]
  have hM : convertEllipticalEccentricAnomalyToMeanAnomaly (-(π/3)) (1/2)
      = -(π/3) + Real.sqrt 3 / 4 := by
    unfold convertEllipticalEccentricAnomalyToMeanAnomaly
    rw [Real.sin_neg, Real.sin_pi_div_three]
    ring
  rw [hM]
  have hMneg : -(π/3) + Real.sqrt 3 / 4 < 0 := by linarith
  have hMgt : (0:ℝ) ≤ -(π/3) + Real.sqrt 3 / 4 + 2 * π := by linarith
  have hsh : shiftMeanAnomaly (-(π/3) + Real.sqrt 3 / 4)
      = -(π/3) + Real.sqrt 3 / 4 + 2 * π := by
    have h1 := (shiftMeanAnomaly_add (-(π/3) + Real.sqrt 3 / 4) 1).symm
    have h2 : -(π/3) + Real.sqrt 3 / 4 + 2 * π * ((1:ℤ) : ℝ)
        = -(π/3) + Real.sqrt 3 / 4 + 2 * π := by push_cast; ring
    rw [h2] at h1
    rw [h1, shiftMeanAnomaly_of_Ico hMgt (by linarith)]
  have hMsπ : π < -(π/3) + Real.sqrt 3 / 4 + 2 * π := by linarith
  have hginit : nrInitialGuess (1/2) (-(π/3) + Real.sqrt 3 / 4 + 2 * π)
      = -(π/3) + Real.sqrt 3 / 4 + 2 * π - 1/2 := by
    unfold nrInitialGuess
    rw [if_pos hMsπ]
  have hsinE0 := Real.neg_one_le_sin (-(π/3) + Real.sqrt 3 / 4 + 2 * π - 1/2)
  have hcosE0 := Real.cos_le_one (-(π/3) + Real.sqrt 3 / 4 + 2 * π - 1/2)
  have hfd : (0:ℝ) < computeFirstDerivativeEllipticalKeplerFunction
      (-(π/3) + Real.sqrt 3 / 4 + 2 * π - 1/2) (1/2) := by
    unfold computeFirstDerivativeEllipticalKeplerFunction
    nlinarith
  have hfneg : computeEllipticalKeplerFunction
      (-(π/3) + Real.sqrt 3 / 4 + 2 * π - 1/2) (1/2)
      (-(π/3) + Real.sqrt 3 / 4 + 2 * π) ≤ 0 := by
    unfold computeEllipticalKeplerFunction
    nlinarith
  have hstep : computeEllipticalKeplerFunction
      (-(π/3) + Real.sqrt 3 / 4 + 2 * π - 1/2) (1/2)
      (-(π/3) + Real.sqrt 3 / 4 + 2 * π) /
      computeFirstDerivativeEllipticalKeplerFunction
      (-(π/3) + Real.sqrt 3 / 4 + 2 * π - 1/2) (1/2) ≤ 0 :=
    div_nonpos_of_nonpos_of_nonneg hfneg hfd.le
  refine ⟨(-(π/3) + Real.sqrt 3 / 4 + 2 * π - 1/2) -
      computeEllipticalKeplerFunction
        (-(π/3) + Real.sqrt 3 / 4 + 2 * π - 1/2) (1/2)
        (-(π/3) + Real.sqrt 3 / 4 + 2 * π) /
      computeFirstDerivativeEllipticalKeplerFunction
        (-(π/3) + Real.sqrt 3 / 4 + 2 * π - 1/2) (1/2), ?_, ?_⟩
  · unfold convertEllipticalMeanAnomalyToEccentricAnomaly
    rw [if_pos (by norm_num : (0:ℝ) ≤ 1/2 ∧ (1:ℝ)/2 < 1 - 1e-11), hsh, hginit,
      (by norm_num : (100:ℕ) = 99 + 1),
      nrIterate_first_step _ _ _ _ _ (by
        have h : (0:ℝ) < 1/10^19 := by norm_num
        linarith [hstep])]
  · have hylb : -(π/3) + Real.sqrt 3 / 4 + 2 * π - 1/2
        ≤ (-(π/3) + Real.sqrt 3 / 4 + 2 * π - 1/2) -
          computeEllipticalKeplerFunction
            (-(π/3) + Real.sqrt 3 / 4 + 2 * π - 1/2) (1/2)
            (-(π/3) + Real.sqrt 3 / 4 + 2 * π) /
          computeFirstDerivativeEllipticalKeplerFunction
            (-(π/3) + Real.sqrt 3 / 4 + 2 * π - 1/2) (1/2) := by
      linarith [hstep]
    rw [abs_of_pos (by linarith)]
    linarith

theorem fdiv_half_eq_double {μ : ℝ} (X : FR) :
    fdiv (fr (-0.5 * μ)) X = fdiv (fr (-μ)) (fmul (fr 2) X) := by
  match X with
  | none => rfl
  | some t =>
    by_cases ht : t = 0
    · simp [fdiv, fmul, fr, ht]
    · have h2t : (2:ℝ) * t ≠ 0 := by
        intro h
        exact ht (by linarith)
      show fdiv (some (-0.5 * μ)) (some t) = fdiv (some (-μ)) (fmul (some 2) (some t))
      rw [fmul_some, fdiv_some _ ht, fdiv_some _ h2t]
      congr 1
      field_simp
      ring

/-- C7: slot 0 of the Cartesian-to-Keplerian conversion holds the
semi-major axis `-μ/(2ε)` (with `ε = v²/2 - μ/r` the specific energy)
when `|e - 1|` exceeds the tolerance, and otherwise — the parabolic case,
including `e` exactly 1 — the semi-latus rectum `h²/μ`, a finite value
(`some _`), raising no error. -/
theorem slot0_semi_major_or_semi_latus (c : Cart) (μ tol : ℝ) (hμ : 0 < μ) :
    (convertCartesianToKeplerianElements c μ tol).c0
      = if nonParabolicCond c μ tol then
          fdiv (fr (-μ)) (fmul (fr 2)
            (fsub (fr (velocityNormSquared c / 2)) (fdiv (fr μ) (fr (positionNorm c)))))
        else fr (angularMomentumNormSquared c / μ) := by
  show (if nonParabolicCond c μ tol then semiMajorAxisExpr c μ
    else fmul (fr (angularMomentumNormSquared c)) (gravitationalParameterInverse μ)) = _
  by_cases h : nonParabolicCond c μ tol
  · rw [if_pos h, if_pos h]
    unfold semiMajorAxisExpr specificTotalEnergy
    rw [show (0.5 * velocityNormSquared c : ℝ) = velocityNormSquared c / 2 by ring]
    exact fdiv_half_eq_double _
  · rw [if_neg h, if_neg h]
    unfold gravitationalParameterInverse
    show fmul (some (angularMomentumNormSquared c)) (fdiv (some 1) (some μ))
      = some (angularMomentumNormSquared c / μ)
    rw [fdiv_some _ hμ.ne', fmul_some]
    congr 1
    field_simp

/-- C7 witness. -/
theorem slot0_semi_major_or_semi_latus_witness :
    (0:ℝ) < 1 ∧
      (convertCartesianToKeplerianElements ⟨1, 0, 0, 0, 1, 0⟩ 1 (1/10)).c0
        = if nonParabolicCond ⟨1, 0, 0, 0, 1, 0⟩ 1 (1/10) then
            fdiv (fr (-1)) (fmul (fr 2)
              (fsub (fr (velocityNormSquared ⟨1, 0, 0, 0, 1, 0⟩ / 2))
                (fdiv (fr 1) (fr (positionNorm ⟨1, 0, 0, 0, 1, 0⟩)))))
          else fr (angularMomentumNormSquared ⟨1, 0, 0, 0, 1, 0⟩ / 1) :=
  ⟨by norm_num, slot0_semi_major_or_semi_latus ⟨1, 0, 0, 0, 1, 0⟩ 1 (1/10) (by norm_num)⟩

theorem sqrt_one_div_100 : Real.sqrt (1/100) = 1/10 := by
  rw [show (1/100 : ℝ) = (1/10)^2 by norm_num, Real.sqrt_sq (by norm_num : (0:ℝ) ≤ 1/10)]

theorem sqrt_one_div_10000 : Real.sqrt (1/10000) = 1/100 := by
  rw [show (1/10000 : ℝ) = (1/100)^2 by norm_num, Real.sqrt_sq (by norm_num : (0:ℝ) ≤ 1/100)]

theorem one_le_sqrt_101_100 : 1 ≤ Real.sqrt (101/100) := by
  rw [show (1:ℝ) = Real.sqrt 1 from Real.sqrt_one.symm]
  exact Real.sqrt_le_sqrt (by norm_num)

theorem sqrt_101_100_lt : Real.sqrt (101/100) < 3/2 := by
  rw [show (3/2:ℝ) = Real.sqrt ((3/2)^2) from (Real.sqrt_sq (by norm_num : (0:ℝ) ≤ 3/2)).symm]
  exact Real.sqrt_lt_sqrt (by norm_num) (by norm_num)

theorem sqrt_101_100_pos : 0 < Real.sqrt (101/100) := by
  linarith [one_le_sqrt_101_100]

theorem inv_sqrt_101_100_le_one : 1 / Real.sqrt (101/100) ≤ 1 :=
  (div_le_one sqrt_101_100_pos).mpr one_le_sqrt_101_100

theorem inv_sqrt_101_100_nonneg : 0 ≤ 1 / Real.sqrt (101/100) := by
  positivity

/-- The inclination `arccos(1/√1.01) ≈ 0.0997` of the counterexample
states is below 1. -/
theorem arccos_inv_sqrt_101_100_lt_one : Real.arccos (1 / Real.sqrt (101/100)) < 1 := by
  by_contra hcon
  push_neg at hcon
  have h1 : Real.cos (Real.arccos (1 / Real.sqrt (101/100))) ≤ Real.cos 1 :=
    Real.cos_le_cos_of_nonneg_of_le_pi (by norm_num)
      (Real.arccos_le_pi _) hcon
  rw [Real.cos_arccos (by linarith [inv_sqrt_101_100_nonneg] : (-1:ℝ) ≤ 1 / Real.sqrt (101/100))
    inv_sqrt_101_100_le_one] at h1
  have h2 : (2:ℝ)/3 < 1 / Real.sqrt (101/100) := by
    rw [lt_div_iff₀ sqrt_101_100_pos]
    nlinarith [sqrt_101_100_lt]
  linarith [Real.cos_one_le]

theorem positionNorm_c2 : positionNorm ⟨1, 0, 0, 0, 1, 1/10⟩ = 1 := by
  have h : positionNormSquared ⟨1, 0, 0, 0, 1, 1/10⟩ = 1 := by
    unfold positionNormSquared
    norm_num
  unfold positionNorm
  rw [h, Real.sqrt_one]

theorem eccVecX_c2 : eccVecX ⟨1, 0, 0, 0, 1, 1/10⟩ 1 = some (1/100) := by
  unfold eccVecX eccentricityVectorFirsTermMultiplier gravitationalParameterInverse
    positionNormInverse velocityNormSquared positionDotVelocity
  rw [positionNorm_c2]
  norm_num [fr, fdiv, fmul, fsub]

theorem eccVecY_c2 : eccVecY ⟨1, 0, 0, 0, 1, 1/10⟩ 1 = some 0 := by
  unfold eccVecY eccentricityVectorFirsTermMultiplier gravitationalParameterInverse
    positionNormInverse velocityNormSquared positionDotVelocity
  rw [positionNorm_c2]
  norm_num [fr, fdiv, fmul, fsub]

theorem eccVecZ_c2 : eccVecZ ⟨1, 0, 0, 0, 1, 1/10⟩ 1 = some 0 := by
  unfold eccVecZ eccentricityVectorFirsTermMultiplier gravitationalParameterInverse
    positionNormInverse velocityNormSquared positionDotVelocity
  rw [positionNorm_c2]
  norm_num [fr, fdiv, fmul, fsub]

theorem eccentricity_c2_input : eccentricity ⟨1, 0, 0, 0, 1, 1/10⟩ 1 = some (1/100) := by
  unfold eccentricity eccentricityNormSquared
  rw [eccVecX_c2, eccVecY_c2, eccVecZ_c2, fmul_some, fmul_some,
    fadd_some, fadd_some,
    show (1/100 * (1/100) + 0 * 0 + 0 * 0 : ℝ) = 1/10000 by norm_num,
    fsqrt_some (by norm_num : (0:ℝ) ≤ 1/10000), sqrt_one_div_10000]

theorem angularMomentumNorm_c2 :
    angularMomentumNorm ⟨1, 0, 0, 0, 1, 1/10⟩ = Real.sqrt (101/100) := by
  have h : angularMomentumNormSquared ⟨1, 0, 0, 0, 1, 1/10⟩ = 101/100 := by
    unfold angularMomentumNormSquared hX hY hZ
    norm_num
  unfold angularMomentumNorm
  rw [h]

theorem inclination_c2_input :
    inclination ⟨1, 0, 0, 0, 1, 1/10⟩ = some (Real.arccos (1 / Real.sqrt (101/100))) := by
  have hz1 : hZ ⟨1, 0, 0, 0, 1, 1/10⟩ = 1 := by
    unfold hZ
    norm_num
  unfold inclination
  rw [hz1, angularMomentumNorm_c2]
  show facos (fdiv (some 1) (some (Real.sqrt (101/100)))) = _
  rw [fdiv_some _ (ne_of_gt sqrt_101_100_pos),
    facos_some (by linarith [inv_sqrt_101_100_nonneg]) inv_sqrt_101_100_le_one]

/-- C2: at the Cartesian state `(1, 0, 0, 0, 1, 1/10)` with `μ = 1` and
tolerance `1`, the computed eccentricity (`1/100`) and inclination
(`arccos(1/√1.01) ≈ 0.0997`) are both within tolerance of zero —
the circular-equatorial case of the claim — yet the returned vector
holds the finite values `0` (not NaN) in both the argument-of-periapsis
slot 3 and the longitude-of-ascending-node slot 4, because the
`quiet_NaN` assignments of source lines 277-278 write to local variables
that are never copied back into the returned vector.  Slot 5 does hold
the (defined) true longitude, here `0`. -/
theorem circular_equatorial_slots_not_nan :
    circularCond ⟨1, 0, 0, 0, 1, 1/10⟩ 1 1
      ∧ equatorialCond ⟨1, 0, 0, 0, 1, 1/10⟩ 1
      ∧ (convertCartesianToKeplerianElements ⟨1, 0, 0, 0, 1, 1/10⟩ 1 1).c3 = some 0
      ∧ (convertCartesianToKeplerianElements ⟨1, 0, 0, 0, 1, 1/10⟩ 1 1).c4 = some 0
      ∧ (convertCartesianToKeplerianElements ⟨1, 0, 0, 0, 1, 1/10⟩ 1 1).c5 = some 0 := by
  have hecc := eccentricity_c2_input
  have hincl := inclination_c2_input
  have harc := arccos_inv_sqrt_101_100_lt_one
  have harc0 := Real.arccos_nonneg (1 / Real.sqrt (101/100))
  have hcirc : circularCond ⟨1, 0, 0, 0, 1, 1/10⟩ 1 1 := by
    unfold circularCond
    rw [hecc, fabsF_some, fltP_some, abs_of_pos (by norm_num : (0:ℝ) < 1/100)]
    norm_num
  have hequat : equatorialCond ⟨1, 0, 0, 0, 1, 1/10⟩ 1 := by
    unfold equatorialCond
    rw [hincl, fabsF_some, fltP_some, abs_of_nonneg harc0]
    exact harc
  have hnotincl : ¬ inclinedCond ⟨1, 0, 0, 0, 1, 1/10⟩ 1 := by
    unfold inclinedCond
    rw [hincl, fabsF_some, fgtP_some, abs_of_nonneg harc0]
    exact not_lt.mpr harc.le
  have hnotecc : ¬ eccentricCond ⟨1, 0, 0, 0, 1, 1/10⟩ 1 1 := by
    unfold eccentricCond
    rw [hecc, fabsF_some, fgtP_some, abs_of_pos (by norm_num : (0:ℝ) < 1/100)]
    norm_num
  refine ⟨hcirc, hequat, ?_, ?_, ?_⟩
  · show (if circularCond ⟨1, 0, 0, 0, 1, 1/10⟩ 1 1 ∧ inclinedCond ⟨1, 0, 0, 0, 1, 1/10⟩ 1
        then argumentOfLatitude ⟨1, 0, 0, 0, 1, 1/10⟩
        else argumentOfPeriapsis ⟨1, 0, 0, 0, 1, 1/10⟩ 1) = some 0
    rw [if_neg (fun h => hnotincl h.2)]
    unfold argumentOfPeriapsis
    have hez := eccVecZ_c2
    have hnd : nDotEcc ⟨1, 0, 0, 0, 1, 1/10⟩ 1 = some (1/1000) := by
      unfold nDotEcc
      have hnx : nX ⟨1, 0, 0, 0, 1, 1/10⟩ = 1/10 := by
        unfold nX hY
        norm_num
      have hny : nY ⟨1, 0, 0, 0, 1, 1/10⟩ = 0 := by
        unfold nY hX
        norm_num
      rw [hnx, hny, eccVecX_c2, eccVecY_c2, eccVecZ_c2]
      norm_num [fr, fmul, fadd]
    have hann : ascendingNodeVectorNorm ⟨1, 0, 0, 0, 1, 1/10⟩ = 1/10 := by
      have h : ascendingNodeVectorNormSquared ⟨1, 0, 0, 0, 1, 1/10⟩ = 1/100 := by
        unfold ascendingNodeVectorNormSquared nX nY hX hY
        norm_num
      unfold ascendingNodeVectorNorm
      rw [h, sqrt_one_div_100]
    rw [if_neg (by rw [hez, fltP_some]; norm_num), hnd, hann, hecc]
    rw [show fmul (fr (1/10)) (some (1/100)) = some (1/1000) from by
      norm_num [fr, fmul]]
    rw [fdiv_some _ (by norm_num : (1/1000 : ℝ) ≠ 0)]
    norm_num
    rw [facos_some (by norm_num) (by norm_num), Real.arccos_one]
  · show (if eccentricCond ⟨1, 0, 0, 0, 1, 1/10⟩ 1 1 ∧ equatorialCond ⟨1, 0, 0, 0, 1, 1/10⟩ 1
        then trueLongitudeOfPeriapsis ⟨1, 0, 0, 0, 1, 1/10⟩ 1 1
        else longitudeOfAscendingNode ⟨1, 0, 0, 0, 1, 1/10⟩) = some 0
    rw [if_neg (fun h => hnotecc h.1)]
    unfold longitudeOfAscendingNode
    have hann : ascendingNodeVectorNorm ⟨1, 0, 0, 0, 1, 1/10⟩ = 1/10 := by
      have h : ascendingNodeVectorNormSquared ⟨1, 0, 0, 0, 1, 1/10⟩ = 1/100 := by
        unfold ascendingNodeVectorNormSquared nX nY hX hY
        norm_num
      unfold ascendingNodeVectorNorm
      rw [h, sqrt_one_div_100]
    have hnx : nX ⟨1, 0, 0, 0, 1, 1/10⟩ = 1/10 := by
      unfold nX hY
      norm_num
    have hny : nY ⟨1, 0, 0, 0, 1, 1/10⟩ = 0 := by
      unfold nY hX
      norm_num
    rw [if_neg (by rw [hny]; norm_num), hnx, hann]
    rw [show fdiv (fr (1/10)) (fr (1/10)) = some 1 from by
      norm_num [fr, fdiv]]
    rw [facos_some (by norm_num) (by norm_num), Real.arccos_one]
  · show (if circularCond ⟨1, 0, 0, 0, 1, 1/10⟩ 1 1 ∧ equatorialCond ⟨1, 0, 0, 0, 1, 1/10⟩ 1
        then trueLongitude ⟨1, 0, 0, 0, 1, 1/10⟩
        else trueAnomaly ⟨1, 0, 0, 0, 1, 1/10⟩ 1) = some 0
    rw [if_pos ⟨hcirc, hequat⟩]
    unfold trueLongitude
    have hpn : positionNorm ⟨1, 0, 0, 0, 1, 1/10⟩ = 1 := by
      unfold positionNorm positionNormSquared
      norm_num [Real.sqrt_one]
    rw [if_neg (by norm_num), hpn]
    rw [show fdiv (fr 1) (fr 1) = some 1 from by norm_num [fr, fdiv]]
    rw [facos_some (by norm_num) (by norm_num), Real.arccos_one]

theorem facos_nonneg {X : FR} {v : ℝ} (h : facos X = some v) : 0 ≤ v := by
  match X with
  | none => simp [facos] at h
  | some a =>
    rw [show facos (some a)
        = if a < -1 ∨ 1 < a then none else some (Real.arccos a) from rfl] at h
    by_cases hc : a < -1 ∨ 1 < a
    · rw [if_pos hc] at h
      cases h
    · rw [if_neg hc] at h
      rw [← Option.some_inj.mp h]
      exact Real.arccos_nonneg a

theorem positionNorm_c8 : positionNorm ⟨1, 0, 0, 0, -1, 1/10⟩ = 1 := by
  have h : positionNormSquared ⟨1, 0, 0, 0, -1, 1/10⟩ = 1 := by
    unfold positionNormSquared
    norm_num
  unfold positionNorm
  rw [h, Real.sqrt_one]

theorem eccVecX_c8 : eccVecX ⟨1, 0, 0, 0, -1, 1/10⟩ 1 = some (1/100) := by
  unfold eccVecX eccentricityVectorFirsTermMultiplier gravitationalParameterInverse
    positionNormInverse velocityNormSquared positionDotVelocity
  rw [positionNorm_c8]
  norm_num [fr, fdiv, fmul, fsub]

theorem eccVecY_c8 : eccVecY ⟨1, 0, 0, 0, -1, 1/10⟩ 1 = some 0 := by
  unfold eccVecY eccentricityVectorFirsTermMultiplier gravitationalParameterInverse
    positionNormInverse velocityNormSquared positionDotVelocity
  rw [positionNorm_c8]
  norm_num [fr, fdiv, fmul, fsub]

theorem eccVecZ_c8 : eccVecZ ⟨1, 0, 0, 0, -1, 1/10⟩ 1 = some 0 := by
  unfold eccVecZ eccentricityVectorFirsTermMultiplier gravitationalParameterInverse
    positionNormInverse velocityNormSquared positionDotVelocity
  rw [positionNorm_c8]
  norm_num [fr, fdiv, fmul, fsub]

theorem eccentricity_c8_input : eccentricity ⟨1, 0, 0, 0, -1, 1/10⟩ 1 = some (1/100) := by
  unfold eccentricity eccentricityNormSquared
  rw [eccVecX_c8, eccVecY_c8, eccVecZ_c8, fmul_some, fmul_some,
    fadd_some, fadd_some,
    show (1/100 * (1/100) + 0 * 0 + 0 * 0 : ℝ) = 1/10000 by norm_num,
    fsqrt_some (by norm_num : (0:ℝ) ≤ 1/10000), sqrt_one_div_10000]

theorem angularMomentumNorm_c8 :
    angularMomentumNorm ⟨1, 0, 0, 0, -1, 1/10⟩ = Real.sqrt (101/100) := by
  have h : angularMomentumNormSquared ⟨1, 0, 0, 0, -1, 1/10⟩ = 101/100 := by
    unfold angularMomentumNormSquared hX hY hZ
    norm_num
  unfold angularMomentumNorm
  rw [h]

theorem inclination_c8_input :
    inclination ⟨1, 0, 0, 0, -1, 1/10⟩
      = some (π - Real.arccos (1 / Real.sqrt (101/100))) := by
  have hz1 : hZ ⟨1, 0, 0, 0, -1, 1/10⟩ = -1 := by
    unfold hZ
    norm_num
  unfold inclination
  rw [hz1, angularMomentumNorm_c8]
  show facos (fdiv (some (-1)) (some (Real.sqrt (101/100)))) = _
  rw [fdiv_some _ (ne_of_gt sqrt_101_100_pos),
    show ((-1) / Real.sqrt (101/100) : ℝ) = -(1 / Real.sqrt (101/100)) by ring,
    facos_some (by linarith [inv_sqrt_101_100_le_one])
      (by linarith [inv_sqrt_101_100_nonneg]),
    Real.arccos_neg]

/-- C8 counterexample: at the retrograde nearly-equatorial circular state
`(1, 0, 0, 0, -1, 1/10)` with `μ = 1`, tolerance `1`, the computed
eccentricity is within tolerance of 0 and the computed inclination
`π - arccos(1/√1.01)` is within tolerance of `π`, yet the returned
longitude-of-ascending-node slot holds the finite value `0`, not NaN:
the source checks only `fabs(inclination) < tolerance` (inclination near
0), never inclination near `π`. -/
theorem retrograde_equatorial_node_not_nan :
    circularCond ⟨1, 0, 0, 0, -1, 1/10⟩ 1 1
      ∧ (∃ iv, inclination ⟨1, 0, 0, 0, -1, 1/10⟩ = some iv ∧ |iv - π| < 1)
      ∧ (convertCartesianToKeplerianElements ⟨1, 0, 0, 0, -1, 1/10⟩ 1 1).c4 = some 0 := by
  have hecc := eccentricity_c8_input
  have hincl := inclination_c8_input
  have harc := arccos_inv_sqrt_101_100_lt_one
  have harc0 := Real.arccos_nonneg (1 / Real.sqrt (101/100))
  have hπ3 := Real.pi_gt_three
  refine ⟨?_, ⟨π - Real.arccos (1 / Real.sqrt (101/100)), hincl, ?_⟩, ?_⟩
  · unfold circularCond
    rw [hecc, fabsF_some, fltP_some, abs_of_pos (by norm_num : (0:ℝ) < 1/100)]
    norm_num
  · rw [show π - Real.arccos (1 / Real.sqrt (101/100)) - π
        = -(Real.arccos (1 / Real.sqrt (101/100))) by ring,
      abs_neg, abs_of_nonneg harc0]
    exact harc
  · have hnotequat : ¬ equatorialCond ⟨1, 0, 0, 0, -1, 1/10⟩ 1 := by
      unfold equatorialCond
      rw [hincl, fabsF_some, fltP_some,
        abs_of_nonneg (by linarith : (0:ℝ) ≤ π - Real.arccos (1 / Real.sqrt (101/100)))]
      linarith
    show (if eccentricCond ⟨1, 0, 0, 0, -1, 1/10⟩ 1 1 ∧ equatorialCond ⟨1, 0, 0, 0, -1, 1/10⟩ 1
        then trueLongitudeOfPeriapsis ⟨1, 0, 0, 0, -1, 1/10⟩ 1 1
        else longitudeOfAscendingNode ⟨1, 0, 0, 0, -1, 1/10⟩) = some 0
    rw [if_neg (fun h => hnotequat h.2)]
    unfold longitudeOfAscendingNode
    have hann : ascendingNodeVectorNorm ⟨1, 0, 0, 0, -1, 1/10⟩ = 1/10 := by
      have h : ascendingNodeVectorNormSquared ⟨1, 0, 0, 0, -1, 1/10⟩ = 1/100 := by
        unfold ascendingNodeVectorNormSquared nX nY hX hY
        norm_num
      unfold ascendingNodeVectorNorm
      rw [h, sqrt_one_div_100]
    have hnx : nX ⟨1, 0, 0, 0, -1, 1/10⟩ = 1/10 := by
      unfold nX hY
      norm_num
    have hny : nY ⟨1, 0, 0, 0, -1, 1/10⟩ = 0 := by
      unfold nY hX
      norm_num
    rw [if_neg (by rw [hny]; norm_num), hnx, hann]
    rw [show fdiv (fr (1/10)) (fr (1/10)) = some 1 from by norm_num [fr, fdiv]]
    rw [facos_some (by norm_num) (by norm_num), Real.arccos_one]

/-- C8 amended: the Cartesian-to-Keplerian conversion applies NO
equatorial special handling near inclination `π`: whenever the computed
inclination is within tolerance of `π` (with a tolerance at most `π/2`),
the returned longitude-of-ascending-node slot is the ordinary
quadrant-corrected `acos` node angle — the NaN flag is reserved to
inclinations within tolerance of 0 (together with eccentricity above
tolerance, which routes slot 4 to the true longitude of periapsis). -/
theorem node_slot_near_pi_keeps_acos_value (c : Cart) (μ tol iv : ℝ)
    (_htol0 : 0 < tol) (htolπ : tol ≤ π / 2)
    (hiv : inclination c = some iv) (hnear : π - tol < iv) :
    (convertCartesianToKeplerianElements c μ tol).c4 = longitudeOfAscendingNode c := by
  have hiv0 : 0 ≤ iv := facos_nonneg hiv
  have hπ2 := Real.pi_pos
  have hnotequat : ¬ equatorialCond c tol := by
    unfold equatorialCond
    rw [hiv, fabsF_some, fltP_some, abs_of_nonneg hiv0]
    intro hlt
    have : π - tol < tol := lt_trans hnear hlt
    linarith
  show (if eccentricCond c μ tol ∧ equatorialCond c tol
      then trueLongitudeOfPeriapsis c μ tol
      else longitudeOfAscendingNode c) = longitudeOfAscendingNode c
  rw [if_neg (fun h => hnotequat h.2)]

/-- C8 amended-theorem witness. -/
theorem node_slot_near_pi_keeps_acos_value_witness :
    (0:ℝ) < 1 ∧ (1:ℝ) ≤ π / 2 ∧
      inclination ⟨1, 0, 0, 0, -1, 1/10⟩
        = some (π - Real.arccos (1 / Real.sqrt (101/100)))
      ∧ π - 1 < π - Real.arccos (1 / Real.sqrt (101/100))
      ∧ (convertCartesianToKeplerianElements ⟨1, 0, 0, 0, -1, 1/10⟩ 1 1).c4
          = longitudeOfAscendingNode ⟨1, 0, 0, 0, -1, 1/10⟩ :=
  ⟨by norm_num, by linarith [Real.pi_gt_three], inclination_c8_input,
    by linarith [arccos_inv_sqrt_101_100_lt_one],
    node_slot_near_pi_keeps_acos_value ⟨1, 0, 0, 0, -1, 1/10⟩ 1 1
      (π - Real.arccos (1 / Real.sqrt (101/100)))
      (by norm_num) (by linarith [Real.pi_gt_three]) inclination_c8_input
      (by linarith [arccos_inv_sqrt_101_100_lt_one])⟩

/-! ### Real-valued closed forms of the forward conversion

On inputs with `μ ≠ 0`, nonzero position and nonzero angular momentum,
every `FR` intermediate of `convertCartesianToKeplerianElements` is
`some` of the corresponding plain-real expression.  The following
real-valued forms (same formulas as the `FR` definitions above, with
ordinary division) and bridge lemmas make that precise; the round-trip
claim C1 is then settled by real-arithmetic identities. -/

/-- Real form of the eccentricity vector x-component. -/
noncomputable def eccVecRX (c : Cart) (μ : ℝ) : ℝ :=
  (velocityNormSquared c / μ - 1 / positionNorm c) * c.x
    - positionDotVelocity c / μ * c.vx

/-- Real form of the eccentricity vector y-component. -/
noncomputable def eccVecRY (c : Cart) (μ : ℝ) : ℝ :=
  (velocityNormSquared c / μ - 1 / positionNorm c) * c.y
    - positionDotVelocity c / μ * c.vy

/-- Real form of the eccentricity vector z-component. -/
noncomputable def eccVecRZ (c : Cart) (μ : ℝ) : ℝ :=
  (velocityNormSquared c / μ - 1 / positionNorm c) * c.z
    - positionDotVelocity c / μ * c.vz

/-- Real form of the squared eccentricity norm. -/
noncomputable def eccNormSqR (c : Cart) (μ : ℝ) : ℝ :=
  eccVecRX c μ * eccVecRX c μ + eccVecRY c μ * eccVecRY c μ
    + eccVecRZ c μ * eccVecRZ c μ

/-- Real form of the eccentricity. -/
noncomputable def eccR (c : Cart) (μ : ℝ) : ℝ := Real.sqrt (eccNormSqR c μ)

/-- Real form of the inclination. -/
noncomputable def inclR (c : Cart) : ℝ :=
  Real.arccos (hZ c / angularMomentumNorm c)

/-- Real form of the specific total energy. -/
noncomputable def epsR (c : Cart) (μ : ℝ) : ℝ :=
  0.5 * velocityNormSquared c - μ / positionNorm c

/-- Real form of the node-vector / eccentricity-vector dot product. -/
noncomputable def nDotEccR (c : Cart) (μ : ℝ) : ℝ :=
  nX c * eccVecRX c μ + nY c * eccVecRY c μ + 0 * eccVecRZ c μ

/-- Real form of the eccentricity-vector / position dot product. -/
noncomputable def eccDotPosR (c : Cart) (μ : ℝ) : ℝ :=
  eccVecRX c μ * c.x + eccVecRY c μ * c.y + eccVecRZ c μ * c.z

/-- Real form of the quadrant-corrected longitude of ascending node. -/
noncomputable def raanR (c : Cart) : ℝ :=
  if nY c < 0 then 2 * π - Real.arccos (nX c / ascendingNodeVectorNorm c)
  else Real.arccos (nX c / ascendingNodeVectorNorm c)

/-- Real form of the quadrant-corrected argument of periapsis. -/
noncomputable def aopR (c : Cart) (μ : ℝ) : ℝ :=
  if eccVecRZ c μ < 0 then
    2 * π - Real.arccos (nDotEccR c μ / (ascendingNodeVectorNorm c * eccR c μ))
  else Real.arccos (nDotEccR c μ / (ascendingNodeVectorNorm c * eccR c μ))

/-- Real form of the quadrant-corrected true anomaly. -/
noncomputable def taR (c : Cart) (μ : ℝ) : ℝ :=
  if positionDotVelocity c < 0 then
    2 * π - Real.arccos (eccDotPosR c μ / (eccR c μ * positionNorm c))
  else Real.arccos (eccDotPosR c μ / (eccR c μ * positionNorm c))

/-- Real form of the semi-major axis. -/
noncomputable def smaR (c : Cart) (μ : ℝ) : ℝ := -0.5 * μ / epsR c μ

theorem gravitationalParameterInverse_some {μ : ℝ} (hμ : μ ≠ 0) :
    gravitationalParameterInverse μ = some (1 / μ) := by
  unfold gravitationalParameterInverse
  exact fdiv_some _ hμ

theorem positionNormInverse_some {c : Cart} (hR : positionNorm c ≠ 0) :
    positionNormInverse c = some (1 / positionNorm c) := by
  unfold positionNormInverse
  exact fdiv_some _ hR

theorem eccVecX_some {c : Cart} {μ : ℝ} (hμ : μ ≠ 0) (hR : positionNorm c ≠ 0) :
    eccVecX c μ = some (eccVecRX c μ) := by
  unfold eccVecX eccentricityVectorFirsTermMultiplier
  rw [gravitationalParameterInverse_some hμ, positionNormInverse_some hR]
  show fsub (fmul (fsub (fmul (some (velocityNormSquared c)) (some (1/μ)))
      (some (1/positionNorm c))) (some c.x))
    (fmul (fmul (some (positionDotVelocity c)) (some (1/μ))) (some c.vx)) = _
  rw [fmul_some, fsub_some, fmul_some, fmul_some, fmul_some, fsub_some]
  unfold eccVecRX
  congr 1
  ring

theorem eccVecY_some {c : Cart} {μ : ℝ} (hμ : μ ≠ 0) (hR : positionNorm c ≠ 0) :
    eccVecY c μ = some (eccVecRY c μ) := by
  unfold eccVecY eccentricityVectorFirsTermMultiplier
  rw [gravitationalParameterInverse_some hμ, positionNormInverse_some hR]
  show fsub (fmul (fsub (fmul (some (velocityNormSquared c)) (some (1/μ)))
      (some (1/positionNorm c))) (some c.y))
    (fmul (fmul (some (positionDotVelocity c)) (some (1/μ))) (some c.vy)) = _
  rw [fmul_some, fsub_some, fmul_some, fmul_some, fmul_some, fsub_some]
  unfold eccVecRY
  congr 1
  ring

theorem eccVecZ_some {c : Cart} {μ : ℝ} (hμ : μ ≠ 0) (hR : positionNorm c ≠ 0) :
    eccVecZ c μ = some (eccVecRZ c μ) := by
  unfold eccVecZ eccentricityVectorFirsTermMultiplier
  rw [gravitationalParameterInverse_some hμ, positionNormInverse_some hR]
  show fsub (fmul (fsub (fmul (some (velocityNormSquared c)) (some (1/μ)))
      (some (1/positionNorm c))) (some c.z))
    (fmul (fmul (some (positionDotVelocity c)) (some (1/μ))) (some c.vz)) = _
  rw [fmul_some, fsub_some, fmul_some, fmul_some, fmul_some, fsub_some]
  unfold eccVecRZ
  congr 1
  ring

theorem eccNormSq_some {c : Cart} {μ : ℝ} (hμ : μ ≠ 0) (hR : positionNorm c ≠ 0) :
    eccentricityNormSquared c μ = some (eccNormSqR c μ) := by
  unfold eccentricityNormSquared
  rw [eccVecX_some hμ hR, eccVecY_some hμ hR, eccVecZ_some hμ hR,
    fmul_some, fmul_some, fmul_some, fadd_some, fadd_some]
  rfl

theorem eccNormSqR_nonneg (c : Cart) (μ : ℝ) : 0 ≤ eccNormSqR c μ := by
  unfold eccNormSqR
  nlinarith [sq_nonneg (eccVecRX c μ), sq_nonneg (eccVecRY c μ), sq_nonneg (eccVecRZ c μ)]

theorem eccentricity_some {c : Cart} {μ : ℝ} (hμ : μ ≠ 0) (hR : positionNorm c ≠ 0) :
    eccentricity c μ = some (eccR c μ) := by
  unfold eccentricity eccR
  rw [eccNormSq_some hμ hR, fsqrt_some (eccNormSqR_nonneg c μ)]

theorem specificTotalEnergy_some {c : Cart} {μ : ℝ} (hR : positionNorm c ≠ 0) :
    specificTotalEnergy c μ = some (epsR c μ) := by
  unfold specificTotalEnergy epsR
  simp only [fr_def]
  rw [fdiv_some _ hR]
  rfl

theorem hZ_sq_le (c : Cart) :
    hZ c * hZ c ≤ angularMomentumNormSquared c := by
  unfold angularMomentumNormSquared
  nlinarith [sq_nonneg (hX c), sq_nonneg (hY c)]

theorem inclination_some {c : Cart} (hH2 : 0 < angularMomentumNormSquared c) :
    inclination c = some (inclR c) := by
  have hH : 0 < angularMomentumNorm c := Real.sqrt_pos.mpr hH2
  have hHsq : angularMomentumNorm c * angularMomentumNorm c
      = angularMomentumNormSquared c :=
    Real.mul_self_sqrt hH2.le
  have hbound : |hZ c / angularMomentumNorm c| ≤ 1 := by
    rw [abs_div, abs_of_pos hH, div_le_one hH]
    nlinarith [abs_mul_abs_self (hZ c), hZ_sq_le c, abs_nonneg (hZ c)]
  rw [abs_le] at hbound
  unfold inclination inclR
  simp only [fr_def]
  rw [fdiv_some _ hH.ne', facos_some hbound.1 hbound.2]

/-! ### Vector-algebra identities for the round trip -/

theorem h_dot_r (c : Cart) : hX c * c.x + hY c * c.y + hZ c * c.z = 0 := by
  unfold hX hY hZ
  ring

theorem h_dot_v (c : Cart) : hX c * c.vx + hY c * c.vy + hZ c * c.vz = 0 := by
  unfold hX hY hZ
  ring

theorem h_dot_e (c : Cart) (μ : ℝ) :
    hX c * eccVecRX c μ + hY c * eccVecRY c μ + hZ c * eccVecRZ c μ = 0 := by
  unfold eccVecRX eccVecRY eccVecRZ
  linear_combination (velocityNormSquared c / μ - 1 / positionNorm c) * h_dot_r c
    - positionDotVelocity c / μ * h_dot_v c

theorem lagrange_h (c : Cart) :
    angularMomentumNormSquared c
      = positionNormSquared c * velocityNormSquared c
        - positionDotVelocity c * positionDotVelocity c := by
  unfold angularMomentumNormSquared hX hY hZ positionNormSquared velocityNormSquared
    positionDotVelocity
  ring

theorem nsq_eq (c : Cart) :
    ascendingNodeVectorNormSquared c = hX c * hX c + hY c * hY c := by
  unfold ascendingNodeVectorNormSquared nX nY
  ring

theorem hsq_split (c : Cart) :
    angularMomentumNormSquared c
      = ascendingNodeVectorNormSquared c + hZ c * hZ c := by
  unfold angularMomentumNormSquared ascendingNodeVectorNormSquared nX nY
  ring

theorem positionNormSquared_nonneg (c : Cart) : 0 ≤ positionNormSquared c := by
  unfold positionNormSquared
  nlinarith [sq_nonneg c.x, sq_nonneg c.y, sq_nonneg c.z]

theorem energy_identity (c : Cart) (μ : ℝ) (hμ : μ ≠ 0)
    (hR2 : 0 < positionNormSquared c) :
    eccNormSqR c μ = 1 + 2 * epsR c μ * angularMomentumNormSquared c / (μ * μ) := by
  have hR0 : 0 < positionNorm c := Real.sqrt_pos.mpr hR2
  have hRsq : positionNormSquared c = positionNorm c * positionNorm c :=
    (Real.mul_self_sqrt hR2.le).symm
  have step1 : eccNormSqR c μ
      = (velocityNormSquared c / μ - 1 / positionNorm c)^2 * positionNormSquared c
        - 2 * (velocityNormSquared c / μ - 1 / positionNorm c)
            * (positionDotVelocity c / μ) * positionDotVelocity c
        + (positionDotVelocity c / μ)^2 * velocityNormSquared c := by
    unfold eccNormSqR eccVecRX eccVecRY eccVecRZ velocityNormSquared
      positionDotVelocity positionNormSquared
    ring
  rw [step1, lagrange_h, hRsq]
  unfold epsR
  field_simp
  ring

theorem eccDotPos_val (c : Cart) (μ : ℝ) (hμ : μ ≠ 0)
    (hR2 : 0 < positionNormSquared c) :
    eccDotPosR c μ = angularMomentumNormSquared c / μ - positionNorm c := by
  have hR0 : 0 < positionNorm c := Real.sqrt_pos.mpr hR2
  have hRsq : positionNormSquared c = positionNorm c * positionNorm c :=
    (Real.mul_self_sqrt hR2.le).symm
  have step1 : eccDotPosR c μ
      = (velocityNormSquared c / μ - 1 / positionNorm c) * positionNormSquared c
        - positionDotVelocity c / μ * positionDotVelocity c := by
    unfold eccDotPosR eccVecRX eccVecRY eccVecRZ positionNormSquared positionDotVelocity
    ring
  rw [step1, lagrange_h, hRsq]
  field_simp
  ring

theorem eccDotVel_val (c : Cart) (μ : ℝ) (hμ : μ ≠ 0)
    (hR : positionNorm c ≠ 0) :
    eccVecRX c μ * c.vx + eccVecRY c μ * c.vy + eccVecRZ c μ * c.vz
      = -(positionDotVelocity c) / positionNorm c := by
  have step1 : eccVecRX c μ * c.vx + eccVecRY c μ * c.vy + eccVecRZ c μ * c.vz
      = (velocityNormSquared c / μ - 1 / positionNorm c) * positionDotVelocity c
        - positionDotVelocity c / μ * velocityNormSquared c := by
    unfold eccVecRX eccVecRY eccVecRZ velocityNormSquared positionDotVelocity
    ring
  rw [step1]
  field_simp
  ring

theorem node_ecc_quad (c : Cart) (μ : ℝ) :
    ascendingNodeVectorNormSquared c * eccNormSqR c μ - nDotEccR c μ * nDotEccR c μ
      = angularMomentumNormSquared c * (eccVecRZ c μ * eccVecRZ c μ) := by
  have h := h_dot_e c μ
  unfold nDotEccR
  rw [nsq_eq]
  unfold angularMomentumNormSquared eccNormSqR nX nY
  linear_combination (hX c * eccVecRX c μ + hY c * eccVecRY c μ - hZ c * eccVecRZ c μ) * h

theorem ecc_pos_quad (c : Cart) (μ : ℝ) :
    eccNormSqR c μ * positionNormSquared c - eccDotPosR c μ * eccDotPosR c μ
      = (positionDotVelocity c / μ) * (positionDotVelocity c / μ)
        * angularMomentumNormSquared c := by
  unfold eccNormSqR eccDotPosR eccVecRX eccVecRY eccVecRZ positionNormSquared
    angularMomentumNormSquared hX hY hZ positionDotVelocity
  ring

theorem decomp_pos_x (c : Cart) (μ : ℝ) :
    c.x * eccNormSqR c μ
      = eccVecRX c μ * eccDotPosR c μ
        + positionDotVelocity c / μ * (hY c * eccVecRZ c μ - hZ c * eccVecRY c μ) := by
  unfold eccNormSqR eccDotPosR eccVecRX eccVecRY eccVecRZ hY hZ positionDotVelocity
  ring

theorem decomp_pos_y (c : Cart) (μ : ℝ) :
    c.y * eccNormSqR c μ
      = eccVecRY c μ * eccDotPosR c μ
        + positionDotVelocity c / μ * (hZ c * eccVecRX c μ - hX c * eccVecRZ c μ) := by
  unfold eccNormSqR eccDotPosR eccVecRX eccVecRY eccVecRZ hX hZ positionDotVelocity
  ring

theorem decomp_pos_z (c : Cart) (μ : ℝ) :
    c.z * eccNormSqR c μ
      = eccVecRZ c μ * eccDotPosR c μ
        + positionDotVelocity c / μ * (hX c * eccVecRY c μ - hY c * eccVecRX c μ) := by
  unfold eccNormSqR eccDotPosR eccVecRX eccVecRY eccVecRZ hX hY positionDotVelocity
  ring

theorem decomp_vel_x (c : Cart) (μ : ℝ) :
    c.vx * eccNormSqR c μ
      = eccVecRX c μ
          * (eccVecRX c μ * c.vx + eccVecRY c μ * c.vy + eccVecRZ c μ * c.vz)
        + (velocityNormSquared c / μ - 1 / positionNorm c)
          * (hY c * eccVecRZ c μ - hZ c * eccVecRY c μ) := by
  unfold eccNormSqR eccVecRX eccVecRY eccVecRZ hY hZ velocityNormSquared
  ring

theorem decomp_vel_y (c : Cart) (μ : ℝ) :
    c.vy * eccNormSqR c μ
      = eccVecRY c μ
          * (eccVecRX c μ * c.vx + eccVecRY c μ * c.vy + eccVecRZ c μ * c.vz)
        + (velocityNormSquared c / μ - 1 / positionNorm c)
          * (hZ c * eccVecRX c μ - hX c * eccVecRZ c μ) := by
  unfold eccNormSqR eccVecRX eccVecRY eccVecRZ hX hZ velocityNormSquared
  ring

theorem decomp_vel_z (c : Cart) (μ : ℝ) :
    c.vz * eccNormSqR c μ
      = eccVecRZ c μ
          * (eccVecRX c μ * c.vx + eccVecRY c μ * c.vy + eccVecRZ c μ * c.vz)
        + (velocityNormSquared c / μ - 1 / positionNorm c)
          * (hX c * eccVecRY c μ - hY c * eccVecRX c μ) := by
  unfold eccNormSqR eccVecRX eccVecRY eccVecRZ hX hY velocityNormSquared
  ring

/-! ### Trigonometric closed forms of the quadrant-corrected angles -/

theorem cos_flip {t s : ℝ} (h1 : -1 ≤ t) (h2 : t ≤ 1) :
    Real.cos (if s < 0 then 2 * π - Real.arccos t else Real.arccos t) = t := by
  split_ifs
  · rw [Real.cos_two_pi_sub, Real.cos_arccos h1 h2]
  · rw [Real.cos_arccos h1 h2]

theorem sin_flip {t s : ℝ} :
    Real.sin (if s < 0 then 2 * π - Real.arccos t else Real.arccos t)
      = (if s < 0 then -1 else 1) * Real.sqrt (1 - t^2) := by
  split_ifs
  · rw [Real.sin_two_pi_sub, Real.sin_arccos]
    ring
  · rw [Real.sin_arccos]
    ring

theorem div_bounds_of_sq_le {a b : ℝ} (hb : 0 < b) (h : a * a ≤ b * b) :
    -1 ≤ a / b ∧ a / b ≤ 1 := by
  constructor
  · rw [le_div_iff₀ hb]
    nlinarith
  · rw [div_le_one hb]
    nlinarith

theorem one_sub_div_sq {a b : ℝ} (hb : b ≠ 0) : 1 - (a / b)^2 = (b * b - a * a) / (b * b) := by
  field_simp
  ring

/-- `cos` of the node longitude. -/
theorem cos_raanR (c : Cart) (hN2 : 0 < ascendingNodeVectorNormSquared c) :
    Real.cos (raanR c) = nX c / ascendingNodeVectorNorm c := by
  have hN : 0 < ascendingNodeVectorNorm c := Real.sqrt_pos.mpr hN2
  have hNN : ascendingNodeVectorNorm c * ascendingNodeVectorNorm c
      = ascendingNodeVectorNormSquared c := Real.mul_self_sqrt hN2.le
  have hsq : nX c * nX c ≤ ascendingNodeVectorNorm c * ascendingNodeVectorNorm c := by
    rw [hNN, nsq_eq]
    unfold nX
    nlinarith [sq_nonneg (hX c)]
  have hb := div_bounds_of_sq_le hN hsq
  unfold raanR
  exact cos_flip hb.1 hb.2

/-- `sin` of the node longitude. -/
theorem sin_raanR (c : Cart) (hN2 : 0 < ascendingNodeVectorNormSquared c) :
    Real.sin (raanR c) = nY c / ascendingNodeVectorNorm c := by
  have hN : 0 < ascendingNodeVectorNorm c := Real.sqrt_pos.mpr hN2
  have hNN : ascendingNodeVectorNorm c * ascendingNodeVectorNorm c
      = ascendingNodeVectorNormSquared c := Real.mul_self_sqrt hN2.le
  unfold raanR
  rw [sin_flip, one_sub_div_sq hN.ne']
  have hnum : ascendingNodeVectorNorm c * ascendingNodeVectorNorm c - nX c * nX c
      = nY c * nY c := by
    rw [hNN, nsq_eq]
    unfold nX nY
    ring
  rw [hnum, Real.sqrt_div (by nlinarith [sq_nonneg (nY c)] : (0:ℝ) ≤ nY c * nY c),
    Real.sqrt_mul_self_eq_abs, Real.sqrt_mul_self hN.le]
  by_cases hy : nY c < 0
  · rw [if_pos hy, abs_of_neg hy]
    ring
  · rw [if_neg hy, abs_of_nonneg (not_lt.mp hy)]
    ring

theorem angularMomentumNormSquared_nonneg (c : Cart) :
    0 ≤ angularMomentumNormSquared c := by
  unfold angularMomentumNormSquared
  nlinarith [sq_nonneg (hX c), sq_nonneg (hY c), sq_nonneg (hZ c)]

/-- `cos` of the argument of periapsis. -/
theorem cos_aopR (c : Cart) (μ : ℝ) (hN2 : 0 < ascendingNodeVectorNormSquared c)
    (he2 : 0 < eccNormSqR c μ) :
    Real.cos (aopR c μ)
      = nDotEccR c μ / (ascendingNodeVectorNorm c * eccR c μ) := by
  have hN : 0 < ascendingNodeVectorNorm c := Real.sqrt_pos.mpr hN2
  have he : 0 < eccR c μ := Real.sqrt_pos.mpr he2
  have hNe : 0 < ascendingNodeVectorNorm c * eccR c μ := mul_pos hN he
  have h1 : ascendingNodeVectorNorm c * ascendingNodeVectorNorm c
      = ascendingNodeVectorNormSquared c := Real.mul_self_sqrt hN2.le
  have h2 : eccR c μ * eccR c μ = eccNormSqR c μ :=
    Real.mul_self_sqrt (eccNormSqR_nonneg c μ)
  have hNesq : (ascendingNodeVectorNorm c * eccR c μ)
      * (ascendingNodeVectorNorm c * eccR c μ)
      = ascendingNodeVectorNormSquared c * eccNormSqR c μ := by
    calc (ascendingNodeVectorNorm c * eccR c μ)
        * (ascendingNodeVectorNorm c * eccR c μ)
        = (ascendingNodeVectorNorm c * ascendingNodeVectorNorm c)
          * (eccR c μ * eccR c μ) := by ring
    _ = ascendingNodeVectorNormSquared c * eccNormSqR c μ := by rw [h1, h2]
  have hsq : nDotEccR c μ * nDotEccR c μ
      ≤ (ascendingNodeVectorNorm c * eccR c μ)
        * (ascendingNodeVectorNorm c * eccR c μ) := by
    rw [hNesq]
    nlinarith [node_ecc_quad c μ, angularMomentumNormSquared_nonneg c,
      sq_nonneg (eccVecRZ c μ)]
  have hb := div_bounds_of_sq_le hNe hsq
  unfold aopR
  exact cos_flip hb.1 hb.2

/-- `sin` of the argument of periapsis:
`H e_z / (N e)`, the sign carried by `e_z`. -/
theorem sin_aopR (c : Cart) (μ : ℝ) (hN2 : 0 < ascendingNodeVectorNormSquared c)
    (he2 : 0 < eccNormSqR c μ) :
    Real.sin (aopR c μ)
      = angularMomentumNorm c * eccVecRZ c μ
        / (ascendingNodeVectorNorm c * eccR c μ) := by
  have hN : 0 < ascendingNodeVectorNorm c := Real.sqrt_pos.mpr hN2
  have he : 0 < eccR c μ := Real.sqrt_pos.mpr he2
  have hNe : 0 < ascendingNodeVectorNorm c * eccR c μ := mul_pos hN he
  have h1 : ascendingNodeVectorNorm c * ascendingNodeVectorNorm c
      = ascendingNodeVectorNormSquared c := Real.mul_self_sqrt hN2.le
  have h2 : eccR c μ * eccR c μ = eccNormSqR c μ :=
    Real.mul_self_sqrt (eccNormSqR_nonneg c μ)
  have hNesq : (ascendingNodeVectorNorm c * eccR c μ)
      * (ascendingNodeVectorNorm c * eccR c μ)
      = ascendingNodeVectorNormSquared c * eccNormSqR c μ := by
    calc (ascendingNodeVectorNorm c * eccR c μ)
        * (ascendingNodeVectorNorm c * eccR c μ)
        = (ascendingNodeVectorNorm c * ascendingNodeVectorNorm c)
          * (eccR c μ * eccR c μ) := by ring
    _ = ascendingNodeVectorNormSquared c * eccNormSqR c μ := by rw [h1, h2]
  unfold aopR
  rw [sin_flip, one_sub_div_sq hNe.ne']
  have hnum : (ascendingNodeVectorNorm c * eccR c μ)
        * (ascendingNodeVectorNorm c * eccR c μ)
      - nDotEccR c μ * nDotEccR c μ
      = angularMomentumNormSquared c * (eccVecRZ c μ * eccVecRZ c μ) := by
    rw [hNesq]
    exact node_ecc_quad c μ
  have hprod : (0:ℝ) ≤ angularMomentumNormSquared c * (eccVecRZ c μ * eccVecRZ c μ) :=
    mul_nonneg (angularMomentumNormSquared_nonneg c) (mul_self_nonneg _)
  rw [hnum, Real.sqrt_div hprod,
    Real.sqrt_mul (angularMomentumNormSquared_nonneg c),
    Real.sqrt_mul_self_eq_abs, Real.sqrt_mul_self hNe.le]
  have hH : Real.sqrt (angularMomentumNormSquared c) = angularMomentumNorm c := rfl
  rw [hH]
  by_cases hz : eccVecRZ c μ < 0
  · rw [if_pos hz, abs_of_neg hz]
    ring
  · rw [if_neg hz, abs_of_nonneg (not_lt.mp hz)]
    ring

/-- `cos` of the true anomaly. -/
theorem cos_taR (c : Cart) (μ : ℝ) (hR2 : 0 < positionNormSquared c)
    (he2 : 0 < eccNormSqR c μ) :
    Real.cos (taR c μ)
      = eccDotPosR c μ / (eccR c μ * positionNorm c) := by
  have hR : 0 < positionNorm c := Real.sqrt_pos.mpr hR2
  have he : 0 < eccR c μ := Real.sqrt_pos.mpr he2
  have heR : 0 < eccR c μ * positionNorm c := mul_pos he hR
  have h1 : positionNorm c * positionNorm c = positionNormSquared c :=
    Real.mul_self_sqrt hR2.le
  have h2 : eccR c μ * eccR c μ = eccNormSqR c μ :=
    Real.mul_self_sqrt (eccNormSqR_nonneg c μ)
  have heRsq : (eccR c μ * positionNorm c) * (eccR c μ * positionNorm c)
      = eccNormSqR c μ * positionNormSquared c := by
    calc (eccR c μ * positionNorm c) * (eccR c μ * positionNorm c)
        = (eccR c μ * eccR c μ) * (positionNorm c * positionNorm c) := by ring
    _ = eccNormSqR c μ * positionNormSquared c := by rw [h1, h2]
  have hsq : eccDotPosR c μ * eccDotPosR c μ
      ≤ (eccR c μ * positionNorm c) * (eccR c μ * positionNorm c) := by
    rw [heRsq]
    nlinarith [ecc_pos_quad c μ, angularMomentumNormSquared_nonneg c,
      mul_self_nonneg (positionDotVelocity c / μ)]
  have hb := div_bounds_of_sq_le heR hsq
  unfold taR
  exact cos_flip hb.1 hb.2

/-- `sin` of the true anomaly: `(r·v) H / (μ e r)`, the sign carried by
`r·v`. -/
theorem sin_taR (c : Cart) (μ : ℝ) (hμ : 0 < μ) (hR2 : 0 < positionNormSquared c)
    (he2 : 0 < eccNormSqR c μ) :
    Real.sin (taR c μ)
      = positionDotVelocity c * angularMomentumNorm c
        / (μ * (eccR c μ * positionNorm c)) := by
  have hR : 0 < positionNorm c := Real.sqrt_pos.mpr hR2
  have he : 0 < eccR c μ := Real.sqrt_pos.mpr he2
  have heR : 0 < eccR c μ * positionNorm c := mul_pos he hR
  have h1 : positionNorm c * positionNorm c = positionNormSquared c :=
    Real.mul_self_sqrt hR2.le
  have h2 : eccR c μ * eccR c μ = eccNormSqR c μ :=
    Real.mul_self_sqrt (eccNormSqR_nonneg c μ)
  have heRsq : (eccR c μ * positionNorm c) * (eccR c μ * positionNorm c)
      = eccNormSqR c μ * positionNormSquared c := by
    calc (eccR c μ * positionNorm c) * (eccR c μ * positionNorm c)
        = (eccR c μ * eccR c μ) * (positionNorm c * positionNorm c) := by ring
    _ = eccNormSqR c μ * positionNormSquared c := by rw [h1, h2]
  unfold taR
  rw [sin_flip, one_sub_div_sq heR.ne']
  have hnum : (eccR c μ * positionNorm c) * (eccR c μ * positionNorm c)
      - eccDotPosR c μ * eccDotPosR c μ
      = (positionDotVelocity c / μ) * (positionDotVelocity c / μ)
        * angularMomentumNormSquared c := by
    rw [heRsq]
    exact ecc_pos_quad c μ
  have hprod : (0:ℝ) ≤ (positionDotVelocity c / μ) * (positionDotVelocity c / μ)
      * angularMomentumNormSquared c :=
    mul_nonneg (mul_self_nonneg _) (angularMomentumNormSquared_nonneg c)
  rw [hnum, Real.sqrt_div hprod,
    Real.sqrt_mul (mul_self_nonneg (positionDotVelocity c / μ)),
    Real.sqrt_mul_self_eq_abs, Real.sqrt_mul_self heR.le]
  have hH : Real.sqrt (angularMomentumNormSquared c) = angularMomentumNorm c := rfl
  rw [hH]
  have habs : |positionDotVelocity c / μ| = |positionDotVelocity c| / μ := by
    rw [abs_div, abs_of_pos hμ]
  rw [habs]
  by_cases hrv : positionDotVelocity c < 0
  · rw [if_pos hrv, abs_of_neg hrv]
    field_simp
  · rw [if_neg hrv, abs_of_nonneg (not_lt.mp hrv)]
    field_simp

/-- `cos` of the inclination. -/
theorem cos_inclR (c : Cart) (hH2 : 0 < angularMomentumNormSquared c) :
    Real.cos (inclR c) = hZ c / angularMomentumNorm c := by
  have hH : 0 < angularMomentumNorm c := Real.sqrt_pos.mpr hH2
  have hHH : angularMomentumNorm c * angularMomentumNorm c
      = angularMomentumNormSquared c := Real.mul_self_sqrt hH2.le
  have hsq : hZ c * hZ c ≤ angularMomentumNorm c * angularMomentumNorm c := by
    rw [hHH]
    exact hZ_sq_le c
  have hb := div_bounds_of_sq_le hH hsq
  unfold inclR
  exact Real.cos_arccos hb.1 hb.2

/-- `sin` of the inclination: `N / H`. -/
theorem sin_inclR (c : Cart) (hH2 : 0 < angularMomentumNormSquared c) :
    Real.sin (inclR c) = ascendingNodeVectorNorm c / angularMomentumNorm c := by
  have hH : 0 < angularMomentumNorm c := Real.sqrt_pos.mpr hH2
  have hHH : angularMomentumNorm c * angularMomentumNorm c
      = angularMomentumNormSquared c := Real.mul_self_sqrt hH2.le
  unfold inclR
  rw [Real.sin_arccos, one_sub_div_sq hH.ne']
  have hnum : angularMomentumNorm c * angularMomentumNorm c - hZ c * hZ c
      = ascendingNodeVectorNormSquared c := by
    rw [hHH, hsq_split]
    ring
  have hnn : (0:ℝ) ≤ ascendingNodeVectorNormSquared c := by
    rw [nsq_eq]
    nlinarith [sq_nonneg (hX c), sq_nonneg (hY c)]
  rw [hnum, Real.sqrt_div hnn, Real.sqrt_mul_self hH.le]
  rfl

/-! ### The forward conversion on non-degenerate states -/

theorem nDotEcc_some {c : Cart} {μ : ℝ} (hμ : μ ≠ 0) (hR : positionNorm c ≠ 0) :
    nDotEcc c μ = some (nDotEccR c μ) := by
  unfold nDotEcc
  rw [eccVecX_some hμ hR, eccVecY_some hμ hR, eccVecZ_some hμ hR]
  simp only [fr_def]
  rw [fmul_some, fmul_some, fmul_some, fadd_some, fadd_some]
  rfl

theorem eccDotPos_some {c : Cart} {μ : ℝ} (hμ : μ ≠ 0) (hR : positionNorm c ≠ 0) :
    eccDotPos c μ = some (eccDotPosR c μ) := by
  unfold eccDotPos
  rw [eccVecX_some hμ hR, eccVecY_some hμ hR, eccVecZ_some hμ hR]
  simp only [fr_def]
  rw [fmul_some, fmul_some, fmul_some, fadd_some, fadd_some]
  rfl

theorem longitudeOfAscendingNode_some {c : Cart}
    (hN2 : 0 < ascendingNodeVectorNormSquared c) :
    longitudeOfAscendingNode c = some (raanR c) := by
  have hN : 0 < ascendingNodeVectorNorm c := Real.sqrt_pos.mpr hN2
  have hNN : ascendingNodeVectorNorm c * ascendingNodeVectorNorm c
      = ascendingNodeVectorNormSquared c := Real.mul_self_sqrt hN2.le
  have hsq : nX c * nX c ≤ ascendingNodeVectorNorm c * ascendingNodeVectorNorm c := by
    rw [hNN, nsq_eq]
    unfold nX
    nlinarith [sq_nonneg (hX c)]
  have hb := div_bounds_of_sq_le hN hsq
  simp only [longitudeOfAscendingNode, raanR, fr_def]
  rw [fdiv_some _ hN.ne', facos_some hb.1 hb.2]
  by_cases hy : nY c < 0
  · rw [if_pos hy, if_pos hy, fsub_some]
  · rw [if_neg hy, if_neg hy]

theorem argumentOfPeriapsis_some {c : Cart} {μ : ℝ} (hμ : μ ≠ 0)
    (hR : positionNorm c ≠ 0) (_hR2 : 0 < positionNormSquared c)
    (hN2 : 0 < ascendingNodeVectorNormSquared c) (he2 : 0 < eccNormSqR c μ) :
    argumentOfPeriapsis c μ = some (aopR c μ) := by
  have hN : 0 < ascendingNodeVectorNorm c := Real.sqrt_pos.mpr hN2
  have he : 0 < eccR c μ := Real.sqrt_pos.mpr he2
  have hNe : 0 < ascendingNodeVectorNorm c * eccR c μ := mul_pos hN he
  have h1 : ascendingNodeVectorNorm c * ascendingNodeVectorNorm c
      = ascendingNodeVectorNormSquared c := Real.mul_self_sqrt hN2.le
  have h2 : eccR c μ * eccR c μ = eccNormSqR c μ :=
    Real.mul_self_sqrt (eccNormSqR_nonneg c μ)
  have hsq : nDotEccR c μ * nDotEccR c μ
      ≤ (ascendingNodeVectorNorm c * eccR c μ)
        * (ascendingNodeVectorNorm c * eccR c μ) := by
    have : (ascendingNodeVectorNorm c * eccR c μ)
        * (ascendingNodeVectorNorm c * eccR c μ)
        = ascendingNodeVectorNormSquared c * eccNormSqR c μ := by
      calc (ascendingNodeVectorNorm c * eccR c μ)
          * (ascendingNodeVectorNorm c * eccR c μ)
          = (ascendingNodeVectorNorm c * ascendingNodeVectorNorm c)
            * (eccR c μ * eccR c μ) := by ring
      _ = ascendingNodeVectorNormSquared c * eccNormSqR c μ := by rw [h1, h2]
    rw [this]
    nlinarith [node_ecc_quad c μ, angularMomentumNormSquared_nonneg c,
      sq_nonneg (eccVecRZ c μ)]
  have hb := div_bounds_of_sq_le hNe hsq
  simp only [argumentOfPeriapsis, aopR, fr_def]
  rw [nDotEcc_some hμ hR, eccentricity_some hμ hR, eccVecZ_some hμ hR]
  rw [fmul_some, fdiv_some _ hNe.ne', facos_some hb.1 hb.2]
  by_cases hz : eccVecRZ c μ < 0
  · rw [if_pos (fltP_some.mpr hz), if_pos hz, fsub_some]
  · rw [if_neg (fun h => hz (fltP_some.mp h)), if_neg hz]

theorem trueAnomaly_some {c : Cart} {μ : ℝ} (hμ : μ ≠ 0)
    (hR : positionNorm c ≠ 0) (hR2 : 0 < positionNormSquared c)
    (he2 : 0 < eccNormSqR c μ) :
    trueAnomaly c μ = some (taR c μ) := by
  have hRp : 0 < positionNorm c := Real.sqrt_pos.mpr hR2
  have he : 0 < eccR c μ := Real.sqrt_pos.mpr he2
  have heR : 0 < eccR c μ * positionNorm c := mul_pos he hRp
  have h1 : positionNorm c * positionNorm c = positionNormSquared c :=
    Real.mul_self_sqrt hR2.le
  have h2 : eccR c μ * eccR c μ = eccNormSqR c μ :=
    Real.mul_self_sqrt (eccNormSqR_nonneg c μ)
  have hsq : eccDotPosR c μ * eccDotPosR c μ
      ≤ (eccR c μ * positionNorm c) * (eccR c μ * positionNorm c) := by
    have : (eccR c μ * positionNorm c) * (eccR c μ * positionNorm c)
        = eccNormSqR c μ * positionNormSquared c := by
      calc (eccR c μ * positionNorm c) * (eccR c μ * positionNorm c)
          = (eccR c μ * eccR c μ) * (positionNorm c * positionNorm c) := by ring
      _ = eccNormSqR c μ * positionNormSquared c := by rw [h1, h2]
    rw [this]
    nlinarith [ecc_pos_quad c μ, angularMomentumNormSquared_nonneg c,
      mul_self_nonneg (positionDotVelocity c / μ)]
  have hb := div_bounds_of_sq_le heR hsq
  simp only [trueAnomaly, taR, fr_def]
  rw [eccDotPos_some hμ hR, eccentricity_some hμ hR]
  rw [fmul_some, fdiv_some _ heR.ne', facos_some hb.1 hb.2]
  by_cases hrv : positionDotVelocity c < 0
  · rw [if_pos hrv, if_pos hrv, fsub_some]
  · rw [if_neg hrv, if_neg hrv]

theorem semiMajorAxisExpr_some {c : Cart} {μ : ℝ} (hR : positionNorm c ≠ 0)
    (heps : epsR c μ ≠ 0) :
    semiMajorAxisExpr c μ = some (smaR c μ) := by
  unfold semiMajorAxisExpr smaR
  rw [specificTotalEnergy_some hR]
  simp only [fr_def]
  rw [fdiv_some _ heps]

/-- On a non-degenerate state — `μ > 0`, nonzero position, nonzero
angular momentum, eccentricity and inclination strictly away (beyond the
tolerance) from the circular, parabolic and equatorial limit cases — the
forward conversion returns exactly the six general-case elements, with
no special-case branch taken and every slot a finite value. -/
theorem forward_nondegenerate (c : Cart) (μ tol : ℝ)
    (hμ : 0 < μ) (htol : 0 ≤ tol)
    (hR2 : 0 < positionNormSquared c)
    (hH2 : 0 < angularMomentumNormSquared c)
    (he0 : tol < eccR c μ) (he1 : tol < |eccR c μ - 1|)
    (hi0 : tol < inclR c) (hi1 : inclR c < π - tol) :
    convertCartesianToKeplerianElements c μ tol
      = ⟨some (smaR c μ), some (eccR c μ), some (inclR c),
         some (aopR c μ), some (raanR c), some (taR c μ)⟩ := by
  have hR : positionNorm c ≠ 0 := (Real.sqrt_pos.mpr hR2).ne'
  have hH : 0 < angularMomentumNorm c := Real.sqrt_pos.mpr hH2
  have he : 0 < eccR c μ := lt_of_le_of_lt htol he0
  have he2 : 0 < eccNormSqR c μ := by
    by_contra hcon
    push_neg at hcon
    have : eccR c μ = 0 := by
      unfold eccR
      rw [show eccNormSqR c μ = 0 from le_antisymm hcon (eccNormSqR_nonneg c μ)]
      exact Real.sqrt_zero
    linarith
  have hipos : 0 < inclR c := lt_of_le_of_lt htol hi0
  have hiπ : inclR c < π := by
    have := Real.pi_pos
    linarith
  have hsin : 0 < Real.sin (inclR c) := Real.sin_pos_of_pos_of_lt_pi hipos hiπ
  have hN : 0 < ascendingNodeVectorNorm c := by
    rw [sin_inclR c hH2] at hsin
    by_contra hcon
    push_neg at hcon
    have h0 : ascendingNodeVectorNorm c = 0 :=
      le_antisymm hcon (Real.sqrt_nonneg _)
    rw [h0, zero_div] at hsin
    exact lt_irrefl 0 hsin
  have hN2 : 0 < ascendingNodeVectorNormSquared c := Real.sqrt_pos.mp hN
  have heps : epsR c μ ≠ 0 := by
    intro h0
    have hE := energy_identity c μ hμ.ne' hR2
    rw [h0] at hE
    have hS1 : eccNormSqR c μ = 1 := by
      rw [hE]
      ring
    have : eccR c μ = 1 := by
      unfold eccR
      rw [hS1, Real.sqrt_one]
    rw [this] at he1
    simp at he1
    linarith
  have habs : |eccR c μ| = eccR c μ := abs_of_pos he
  have hiabs : |inclR c| = inclR c := abs_of_pos hipos
  have hcircF : ¬ circularCond c μ tol := by
    unfold circularCond
    rw [eccentricity_some hμ.ne' hR, fabsF_some, fltP_some, habs]
    exact not_lt.mpr he0.le
  have hequatF : ¬ equatorialCond c tol := by
    unfold equatorialCond
    rw [inclination_some hH2, fabsF_some, fltP_some, hiabs]
    exact not_lt.mpr hi0.le
  have hparab : nonParabolicCond c μ tol := by
    unfold nonParabolicCond
    rw [eccentricity_some hμ.ne' hR]
    refine ⟨|eccR c μ - 1|, ?_, he1⟩
    simp only [fr_def]
    rw [fsub_some, fabsF_some]
  show Vec6.mk _ _ _ _ _ _ = _
  rw [Vec6.mk.injEq]
  refine ⟨?_, ?_, ?_, ?_, ?_, ?_⟩
  · rw [if_pos hparab]
    exact semiMajorAxisExpr_some hR heps
  · exact eccentricity_some hμ.ne' hR
  · exact inclination_some hH2
  · rw [if_neg (fun h => hcircF h.1)]
    exact argumentOfPeriapsis_some hμ.ne' hR hR2 hN2 he2
  · rw [if_neg (fun h => hequatF h.2)]
    exact longitudeOfAscendingNode_some hN2
  · rw [if_neg (fun h => hcircF h.1)]
    exact trueAnomaly_some hμ.ne' hR hR2 he2


/-! ### Rotation-matrix column closed forms for the round trip -/

theorem rotP1 (c : Cart) (μ : ℝ) (hH2 : 0 < angularMomentumNormSquared c)
    (hN2 : 0 < ascendingNodeVectorNormSquared c) (he2 : 0 < eccNormSqR c μ) :
    nX c / ascendingNodeVectorNorm c
        * (nDotEccR c μ / (ascendingNodeVectorNorm c * eccR c μ))
      - nY c / ascendingNodeVectorNorm c
          * (angularMomentumNorm c * eccVecRZ c μ
              / (ascendingNodeVectorNorm c * eccR c μ))
          * (hZ c / angularMomentumNorm c)
      = eccVecRX c μ / eccR c μ := by
  have hN : 0 < ascendingNodeVectorNorm c := Real.sqrt_pos.mpr hN2
  have hH : 0 < angularMomentumNorm c := Real.sqrt_pos.mpr hH2
  have he : 0 < eccR c μ := Real.sqrt_pos.mpr he2
  have hNN' : ascendingNodeVectorNorm c * ascendingNodeVectorNorm c
      = ascendingNodeVectorNormSquared c := Real.mul_self_sqrt hN2.le
  have hNN : ascendingNodeVectorNorm c * ascendingNodeVectorNorm c
      = hX c * hX c + hY c * hY c := by rw [hNN', nsq_eq]
  have hde := h_dot_e c μ
  simp only [nDotEccR, nX, nY]
  field_simp [hN.ne', hH.ne', he.ne']
  linear_combination
    (-(ascendingNodeVectorNorm c * ascendingNodeVectorNorm c * eccR c μ * eccR c μ
        * angularMomentumNorm c * hX c)) * hde
    + (-(ascendingNodeVectorNorm c * ascendingNodeVectorNorm c * eccR c μ * eccR c μ
        * angularMomentumNorm c * eccVecRX c μ)) * hNN

theorem rotP2 (c : Cart) (μ : ℝ) (hH2 : 0 < angularMomentumNormSquared c)
    (hN2 : 0 < ascendingNodeVectorNormSquared c) (he2 : 0 < eccNormSqR c μ) :
    nY c / ascendingNodeVectorNorm c
        * (nDotEccR c μ / (ascendingNodeVectorNorm c * eccR c μ))
      + nX c / ascendingNodeVectorNorm c
          * (angularMomentumNorm c * eccVecRZ c μ
              / (ascendingNodeVectorNorm c * eccR c μ))
          * (hZ c / angularMomentumNorm c)
      = eccVecRY c μ / eccR c μ := by
  have hN : 0 < ascendingNodeVectorNorm c := Real.sqrt_pos.mpr hN2
  have hH : 0 < angularMomentumNorm c := Real.sqrt_pos.mpr hH2
  have he : 0 < eccR c μ := Real.sqrt_pos.mpr he2
  have hNN' : ascendingNodeVectorNorm c * ascendingNodeVectorNorm c
      = ascendingNodeVectorNormSquared c := Real.mul_self_sqrt hN2.le
  have hNN : ascendingNodeVectorNorm c * ascendingNodeVectorNorm c
      = hX c * hX c + hY c * hY c := by rw [hNN', nsq_eq]
  have hde := h_dot_e c μ
  simp only [nDotEccR, nX, nY]
  field_simp [hN.ne', hH.ne', he.ne']
  linear_combination
    (-(ascendingNodeVectorNorm c * ascendingNodeVectorNorm c * eccR c μ * eccR c μ
        * angularMomentumNorm c * hY c)) * hde
    + (-(ascendingNodeVectorNorm c * ascendingNodeVectorNorm c * eccR c μ * eccR c μ
        * angularMomentumNorm c * eccVecRY c μ)) * hNN

theorem rotP3 (c : Cart) (μ : ℝ) (hH2 : 0 < angularMomentumNormSquared c)
    (hN2 : 0 < ascendingNodeVectorNormSquared c) (he2 : 0 < eccNormSqR c μ) :
    angularMomentumNorm c * eccVecRZ c μ / (ascendingNodeVectorNorm c * eccR c μ)
        * (ascendingNodeVectorNorm c / angularMomentumNorm c)
      = eccVecRZ c μ / eccR c μ := by
  have hN : 0 < ascendingNodeVectorNorm c := Real.sqrt_pos.mpr hN2
  have hH : 0 < angularMomentumNorm c := Real.sqrt_pos.mpr hH2
  have he : 0 < eccR c μ := Real.sqrt_pos.mpr he2
  field_simp
  ring

theorem rotQ1 (c : Cart) (μ : ℝ) (hH2 : 0 < angularMomentumNormSquared c)
    (hN2 : 0 < ascendingNodeVectorNormSquared c) (he2 : 0 < eccNormSqR c μ) :
    -(nX c / ascendingNodeVectorNorm c)
        * (angularMomentumNorm c * eccVecRZ c μ
            / (ascendingNodeVectorNorm c * eccR c μ))
      - nY c / ascendingNodeVectorNorm c
          * (nDotEccR c μ / (ascendingNodeVectorNorm c * eccR c μ))
          * (hZ c / angularMomentumNorm c)
      = (hY c * eccVecRZ c μ - hZ c * eccVecRY c μ)
          / (angularMomentumNorm c * eccR c μ) := by
  have hN : 0 < ascendingNodeVectorNorm c := Real.sqrt_pos.mpr hN2
  have hH : 0 < angularMomentumNorm c := Real.sqrt_pos.mpr hH2
  have he : 0 < eccR c μ := Real.sqrt_pos.mpr he2
  have hNN' : ascendingNodeVectorNorm c * ascendingNodeVectorNorm c
      = ascendingNodeVectorNormSquared c := Real.mul_self_sqrt hN2.le
  have hNN : ascendingNodeVectorNorm c * ascendingNodeVectorNorm c
      = hX c * hX c + hY c * hY c := by rw [hNN', nsq_eq]
  have hHH' : angularMomentumNorm c * angularMomentumNorm c
      = angularMomentumNormSquared c := Real.mul_self_sqrt hH2.le
  have hHH : angularMomentumNorm c * angularMomentumNorm c
      = hX c * hX c + hY c * hY c + hZ c * hZ c := by
    rw [hHH']; rfl
  have hde := h_dot_e c μ
  simp only [nDotEccR, nX, nY]
  field_simp [hN.ne', hH.ne', he.ne']
  linear_combination
    (ascendingNodeVectorNorm c * ascendingNodeVectorNorm c * eccR c μ * eccR c μ
        * angularMomentumNorm c * (hY c * hZ c)) * hde
    + (ascendingNodeVectorNorm c * ascendingNodeVectorNorm c * eccR c μ * eccR c μ
        * angularMomentumNorm c * (hY c * eccVecRZ c μ)) * hHH
    + (-(ascendingNodeVectorNorm c * ascendingNodeVectorNorm c * eccR c μ * eccR c μ
        * angularMomentumNorm c * (hY c * eccVecRZ c μ - hZ c * eccVecRY c μ))) * hNN

theorem rotQ2 (c : Cart) (μ : ℝ) (hH2 : 0 < angularMomentumNormSquared c)
    (hN2 : 0 < ascendingNodeVectorNormSquared c) (he2 : 0 < eccNormSqR c μ) :
    -(nY c / ascendingNodeVectorNorm c)
        * (angularMomentumNorm c * eccVecRZ c μ
            / (ascendingNodeVectorNorm c * eccR c μ))
      + nX c / ascendingNodeVectorNorm c
          * (nDotEccR c μ / (ascendingNodeVectorNorm c * eccR c μ))
          * (hZ c / angularMomentumNorm c)
      = (hZ c * eccVecRX c μ - hX c * eccVecRZ c μ)
          / (angularMomentumNorm c * eccR c μ) := by
  have hN : 0 < ascendingNodeVectorNorm c := Real.sqrt_pos.mpr hN2
  have hH : 0 < angularMomentumNorm c := Real.sqrt_pos.mpr hH2
  have he : 0 < eccR c μ := Real.sqrt_pos.mpr he2
  have hNN' : ascendingNodeVectorNorm c * ascendingNodeVectorNorm c
      = ascendingNodeVectorNormSquared c := Real.mul_self_sqrt hN2.le
  have hNN : ascendingNodeVectorNorm c * ascendingNodeVectorNorm c
      = hX c * hX c + hY c * hY c := by rw [hNN', nsq_eq]
  have hHH' : angularMomentumNorm c * angularMomentumNorm c
      = angularMomentumNormSquared c := Real.mul_self_sqrt hH2.le
  have hHH : angularMomentumNorm c * angularMomentumNorm c
      = hX c * hX c + hY c * hY c + hZ c * hZ c := by
    rw [hHH']; rfl
  have hde := h_dot_e c μ
  simp only [nDotEccR, nX, nY]
  field_simp [hN.ne', hH.ne', he.ne']
  linear_combination
    (-(ascendingNodeVectorNorm c * ascendingNodeVectorNorm c * eccR c μ * eccR c μ
        * angularMomentumNorm c * (hX c * hZ c))) * hde
    + (-(ascendingNodeVectorNorm c * ascendingNodeVectorNorm c * eccR c μ * eccR c μ
        * angularMomentumNorm c * (hX c * eccVecRZ c μ))) * hHH
    + (-(ascendingNodeVectorNorm c * ascendingNodeVectorNorm c * eccR c μ * eccR c μ
        * angularMomentumNorm c * (hZ c * eccVecRX c μ - hX c * eccVecRZ c μ))) * hNN

theorem rotQ3 (c : Cart) (μ : ℝ) (hH2 : 0 < angularMomentumNormSquared c)
    (hN2 : 0 < ascendingNodeVectorNormSquared c) (he2 : 0 < eccNormSqR c μ) :
    nDotEccR c μ / (ascendingNodeVectorNorm c * eccR c μ)
        * (ascendingNodeVectorNorm c / angularMomentumNorm c)
      = (hX c * eccVecRY c μ - hY c * eccVecRX c μ)
          / (angularMomentumNorm c * eccR c μ) := by
  have hN : 0 < ascendingNodeVectorNorm c := Real.sqrt_pos.mpr hN2
  have hH : 0 < angularMomentumNorm c := Real.sqrt_pos.mpr hH2
  have he : 0 < eccR c μ := Real.sqrt_pos.mpr he2
  simp only [nDotEccR, nX, nY]
  field_simp
  ring



/-! ### Slot assembly lemmas for the round trip -/

theorem slotPX (c : Cart) (μ : ℝ) (hμ : 0 < μ) (hR2 : 0 < positionNormSquared c)
    (hH2 : 0 < angularMomentumNormSquared c)
    (hN2 : 0 < ascendingNodeVectorNormSquared c) (he2 : 0 < eccNormSqR c μ) :
    (nX c / ascendingNodeVectorNorm c
          * (nDotEccR c μ / (ascendingNodeVectorNorm c * eccR c μ))
        - nY c / ascendingNodeVectorNorm c
            * (angularMomentumNorm c * eccVecRZ c μ
                / (ascendingNodeVectorNorm c * eccR c μ))
            * (hZ c / angularMomentumNorm c))
        * (positionNorm c * (eccDotPosR c μ / (eccR c μ * positionNorm c)))
      + (-(nX c / ascendingNodeVectorNorm c)
            * (angularMomentumNorm c * eccVecRZ c μ
                / (ascendingNodeVectorNorm c * eccR c μ))
          - nY c / ascendingNodeVectorNorm c
              * (nDotEccR c μ / (ascendingNodeVectorNorm c * eccR c μ))
              * (hZ c / angularMomentumNorm c))
        * (positionNorm c
            * (positionDotVelocity c * angularMomentumNorm c
                / (μ * (eccR c μ * positionNorm c))))
      = c.x := by
  rw [rotP1 c μ hH2 hN2 he2, rotQ1 c μ hH2 hN2 he2]
  have hR : 0 < positionNorm c := Real.sqrt_pos.mpr hR2
  have hH : 0 < angularMomentumNorm c := Real.sqrt_pos.mpr hH2
  have he : 0 < eccR c μ := Real.sqrt_pos.mpr he2
  have hee : eccR c μ * eccR c μ = eccNormSqR c μ :=
    Real.mul_self_sqrt (eccNormSqR_nonneg c μ)
  have hdx := decomp_pos_x c μ
  field_simp [hμ.ne'] at hdx
  field_simp [hR.ne', hH.ne', he.ne', hμ.ne']
  linear_combination
    (-(angularMomentumNorm c * eccR c μ * eccR c μ * positionNorm c * positionNorm c
        * c.x * μ)) * hee
    + (-(angularMomentumNorm c * eccR c μ * eccR c μ * positionNorm c
        * positionNorm c)) * hdx

theorem slotPY (c : Cart) (μ : ℝ) (hμ : 0 < μ) (hR2 : 0 < positionNormSquared c)
    (hH2 : 0 < angularMomentumNormSquared c)
    (hN2 : 0 < ascendingNodeVectorNormSquared c) (he2 : 0 < eccNormSqR c μ) :
    (nY c / ascendingNodeVectorNorm c
          * (nDotEccR c μ / (ascendingNodeVectorNorm c * eccR c μ))
        + nX c / ascendingNodeVectorNorm c
            * (angularMomentumNorm c * eccVecRZ c μ
                / (ascendingNodeVectorNorm c * eccR c μ))
            * (hZ c / angularMomentumNorm c))
        * (positionNorm c * (eccDotPosR c μ / (eccR c μ * positionNorm c)))
      + (-(nY c / ascendingNodeVectorNorm c)
            * (angularMomentumNorm c * eccVecRZ c μ
                / (ascendingNodeVectorNorm c * eccR c μ))
          + nX c / ascendingNodeVectorNorm c
              * (nDotEccR c μ / (ascendingNodeVectorNorm c * eccR c μ))
              * (hZ c / angularMomentumNorm c))
        * (positionNorm c
            * (positionDotVelocity c * angularMomentumNorm c
                / (μ * (eccR c μ * positionNorm c))))
      = c.y := by
  rw [rotP2 c μ hH2 hN2 he2, rotQ2 c μ hH2 hN2 he2]
  have hR : 0 < positionNorm c := Real.sqrt_pos.mpr hR2
  have hH : 0 < angularMomentumNorm c := Real.sqrt_pos.mpr hH2
  have he : 0 < eccR c μ := Real.sqrt_pos.mpr he2
  have hee : eccR c μ * eccR c μ = eccNormSqR c μ :=
    Real.mul_self_sqrt (eccNormSqR_nonneg c μ)
  have hdy := decomp_pos_y c μ
  field_simp [hμ.ne'] at hdy
  field_simp [hR.ne', hH.ne', he.ne', hμ.ne']
  linear_combination
    (-(angularMomentumNorm c * eccR c μ * eccR c μ * positionNorm c * positionNorm c
        * c.y * μ)) * hee
    + (-(angularMomentumNorm c * eccR c μ * eccR c μ * positionNorm c
        * positionNorm c)) * hdy

theorem slotPZ (c : Cart) (μ : ℝ) (hμ : 0 < μ) (hR2 : 0 < positionNormSquared c)
    (hH2 : 0 < angularMomentumNormSquared c)
    (hN2 : 0 < ascendingNodeVectorNormSquared c) (he2 : 0 < eccNormSqR c μ) :
    angularMomentumNorm c * eccVecRZ c μ / (ascendingNodeVectorNorm c * eccR c μ)
          * (ascendingNodeVectorNorm c / angularMomentumNorm c)
        * (positionNorm c * (eccDotPosR c μ / (eccR c μ * positionNorm c)))
      + nDotEccR c μ / (ascendingNodeVectorNorm c * eccR c μ)
          * (ascendingNodeVectorNorm c / angularMomentumNorm c)
        * (positionNorm c
            * (positionDotVelocity c * angularMomentumNorm c
                / (μ * (eccR c μ * positionNorm c))))
      = c.z := by
  rw [rotP3 c μ hH2 hN2 he2, rotQ3 c μ hH2 hN2 he2]
  have hR : 0 < positionNorm c := Real.sqrt_pos.mpr hR2
  have hH : 0 < angularMomentumNorm c := Real.sqrt_pos.mpr hH2
  have he : 0 < eccR c μ := Real.sqrt_pos.mpr he2
  have hee : eccR c μ * eccR c μ = eccNormSqR c μ :=
    Real.mul_self_sqrt (eccNormSqR_nonneg c μ)
  have hdz := decomp_pos_z c μ
  field_simp [hμ.ne'] at hdz
  field_simp [hR.ne', hH.ne', he.ne', hμ.ne']
  linear_combination
    (-(angularMomentumNorm c * eccR c μ * eccR c μ * positionNorm c * positionNorm c
        * c.z * μ)) * hee
    + (-(angularMomentumNorm c * eccR c μ * eccR c μ * positionNorm c
        * positionNorm c)) * hdz

theorem slotVX (c : Cart) (μ : ℝ) (hμ : 0 < μ) (hR2 : 0 < positionNormSquared c)
    (hH2 : 0 < angularMomentumNormSquared c)
    (hN2 : 0 < ascendingNodeVectorNormSquared c) (he2 : 0 < eccNormSqR c μ) :
    (nX c / ascendingNodeVectorNorm c
          * (nDotEccR c μ / (ascendingNodeVectorNorm c * eccR c μ))
        - nY c / ascendingNodeVectorNorm c
            * (angularMomentumNorm c * eccVecRZ c μ
                / (ascendingNodeVectorNorm c * eccR c μ))
            * (hZ c / angularMomentumNorm c))
        * (-(μ / angularMomentumNorm c)
            * (positionDotVelocity c * angularMomentumNorm c
                / (μ * (eccR c μ * positionNorm c))))
      + (-(nX c / ascendingNodeVectorNorm c)
            * (angularMomentumNorm c * eccVecRZ c μ
                / (ascendingNodeVectorNorm c * eccR c μ))
          - nY c / ascendingNodeVectorNorm c
              * (nDotEccR c μ / (ascendingNodeVectorNorm c * eccR c μ))
              * (hZ c / angularMomentumNorm c))
        * (μ / angularMomentumNorm c
            * (eccR c μ + eccDotPosR c μ / (eccR c μ * positionNorm c)))
      = c.vx := by
  rw [rotP1 c μ hH2 hN2 he2, rotQ1 c μ hH2 hN2 he2]
  have hR : 0 < positionNorm c := Real.sqrt_pos.mpr hR2
  have hH : 0 < angularMomentumNorm c := Real.sqrt_pos.mpr hH2
  have he : 0 < eccR c μ := Real.sqrt_pos.mpr he2
  have hee : eccR c μ * eccR c μ = eccNormSqR c μ :=
    Real.mul_self_sqrt (eccNormSqR_nonneg c μ)
  have hHH : angularMomentumNorm c * angularMomentumNorm c
      = angularMomentumNormSquared c := Real.mul_self_sqrt hH2.le
  have hdvx := decomp_vel_x c μ
  field_simp [hμ.ne', hR.ne'] at hdvx
  have hdv := eccDotVel_val c μ hμ.ne' hR.ne'
  field_simp [hR.ne'] at hdv
  have hE := energy_identity c μ hμ.ne' hR2
  unfold epsR at hE
  field_simp [hμ.ne', hR.ne'] at hE
  have hdp := eccDotPos_val c μ hμ.ne' hR2
  field_simp [hμ.ne'] at hdp
  field_simp [hR.ne', hH.ne', he.ne', hμ.ne']
  linear_combination
    (angularMomentumNorm c * eccR c μ * eccR c μ * positionNorm c
        * (-(eccVecRX c μ * positionDotVelocity c * μ)
            - c.vx * eccR c μ * eccR c μ * positionNorm c * μ)) * hHH
    + (angularMomentumNorm c * eccR c μ * eccR c μ * positionNorm c
        * ((hY c * eccVecRZ c μ - hZ c * eccVecRY c μ) * μ * μ * positionNorm c
            - c.vx * angularMomentumNormSquared c * positionNorm c * μ)) * hee
    + (angularMomentumNorm c * eccR c μ * eccR c μ * positionNorm c
        * (hY c * eccVecRZ c μ - hZ c * eccVecRY c μ) * μ) * hdp
    + (angularMomentumNorm c * eccR c μ * eccR c μ * positionNorm c
        * (hY c * eccVecRZ c μ - hZ c * eccVecRY c μ)) * hE
    + (-(angularMomentumNorm c * eccR c μ * eccR c μ * positionNorm c
        * angularMomentumNormSquared c)) * hdvx
    + (-(angularMomentumNorm c * eccR c μ * eccR c μ * positionNorm c
        * eccVecRX c μ * μ * angularMomentumNormSquared c)) * hdv

theorem slotVY (c : Cart) (μ : ℝ) (hμ : 0 < μ) (hR2 : 0 < positionNormSquared c)
    (hH2 : 0 < angularMomentumNormSquared c)
    (hN2 : 0 < ascendingNodeVectorNormSquared c) (he2 : 0 < eccNormSqR c μ) :
    (nY c / ascendingNodeVectorNorm c
          * (nDotEccR c μ / (ascendingNodeVectorNorm c * eccR c μ))
        + nX c / ascendingNodeVectorNorm c
            * (angularMomentumNorm c * eccVecRZ c μ
                / (ascendingNodeVectorNorm c * eccR c μ))
            * (hZ c / angularMomentumNorm c))
        * (-(μ / angularMomentumNorm c)
            * (positionDotVelocity c * angularMomentumNorm c
                / (μ * (eccR c μ * positionNorm c))))
      + (-(nY c / ascendingNodeVectorNorm c)
            * (angularMomentumNorm c * eccVecRZ c μ
                / (ascendingNodeVectorNorm c * eccR c μ))
          + nX c / ascendingNodeVectorNorm c
              * (nDotEccR c μ / (ascendingNodeVectorNorm c * eccR c μ))
              * (hZ c / angularMomentumNorm c))
        * (μ / angularMomentumNorm c
            * (eccR c μ + eccDotPosR c μ / (eccR c μ * positionNorm c)))
      = c.vy := by
  rw [rotP2 c μ hH2 hN2 he2, rotQ2 c μ hH2 hN2 he2]
  have hR : 0 < positionNorm c := Real.sqrt_pos.mpr hR2
  have hH : 0 < angularMomentumNorm c := Real.sqrt_pos.mpr hH2
  have he : 0 < eccR c μ := Real.sqrt_pos.mpr he2
  have hee : eccR c μ * eccR c μ = eccNormSqR c μ :=
    Real.mul_self_sqrt (eccNormSqR_nonneg c μ)
  have hHH : angularMomentumNorm c * angularMomentumNorm c
      = angularMomentumNormSquared c := Real.mul_self_sqrt hH2.le
  have hdvy := decomp_vel_y c μ
  field_simp [hμ.ne', hR.ne'] at hdvy
  have hdv := eccDotVel_val c μ hμ.ne' hR.ne'
  field_simp [hR.ne'] at hdv
  have hE := energy_identity c μ hμ.ne' hR2
  unfold epsR at hE
  field_simp [hμ.ne', hR.ne'] at hE
  have hdp := eccDotPos_val c μ hμ.ne' hR2
  field_simp [hμ.ne'] at hdp
  field_simp [hR.ne', hH.ne', he.ne', hμ.ne']
  linear_combination
    (angularMomentumNorm c * eccR c μ * eccR c μ * positionNorm c
        * (-(eccVecRY c μ * positionDotVelocity c * μ)
            - c.vy * eccR c μ * eccR c μ * positionNorm c * μ)) * hHH
    + (angularMomentumNorm c * eccR c μ * eccR c μ * positionNorm c
        * ((hZ c * eccVecRX c μ - hX c * eccVecRZ c μ) * μ * μ * positionNorm c
            - c.vy * angularMomentumNormSquared c * positionNorm c * μ)) * hee
    + (angularMomentumNorm c * eccR c μ * eccR c μ * positionNorm c
        * (hZ c * eccVecRX c μ - hX c * eccVecRZ c μ) * μ) * hdp
    + (angularMomentumNorm c * eccR c μ * eccR c μ * positionNorm c
        * (hZ c * eccVecRX c μ - hX c * eccVecRZ c μ)) * hE
    + (-(angularMomentumNorm c * eccR c μ * eccR c μ * positionNorm c
        * angularMomentumNormSquared c)) * hdvy
    + (-(angularMomentumNorm c * eccR c μ * eccR c μ * positionNorm c
        * eccVecRY c μ * μ * angularMomentumNormSquared c)) * hdv

theorem slotVZ (c : Cart) (μ : ℝ) (hμ : 0 < μ) (hR2 : 0 < positionNormSquared c)
    (hH2 : 0 < angularMomentumNormSquared c)
    (hN2 : 0 < ascendingNodeVectorNormSquared c) (he2 : 0 < eccNormSqR c μ) :
    angularMomentumNorm c * eccVecRZ c μ / (ascendingNodeVectorNorm c * eccR c μ)
          * (ascendingNodeVectorNorm c / angularMomentumNorm c)
        * (-(μ / angularMomentumNorm c)
            * (positionDotVelocity c * angularMomentumNorm c
                / (μ * (eccR c μ * positionNorm c))))
      + nDotEccR c μ / (ascendingNodeVectorNorm c * eccR c μ)
          * (ascendingNodeVectorNorm c / angularMomentumNorm c)
        * (μ / angularMomentumNorm c
            * (eccR c μ + eccDotPosR c μ / (eccR c μ * positionNorm c)))
      = c.vz := by
  rw [rotP3 c μ hH2 hN2 he2, rotQ3 c μ hH2 hN2 he2]
  have hR : 0 < positionNorm c := Real.sqrt_pos.mpr hR2
  have hH : 0 < angularMomentumNorm c := Real.sqrt_pos.mpr hH2
  have he : 0 < eccR c μ := Real.sqrt_pos.mpr he2
  have hee : eccR c μ * eccR c μ = eccNormSqR c μ :=
    Real.mul_self_sqrt (eccNormSqR_nonneg c μ)
  have hHH : angularMomentumNorm c * angularMomentumNorm c
      = angularMomentumNormSquared c := Real.mul_self_sqrt hH2.le
  have hdvz := decomp_vel_z c μ
  field_simp [hμ.ne', hR.ne'] at hdvz
  have hdv := eccDotVel_val c μ hμ.ne' hR.ne'
  field_simp [hR.ne'] at hdv
  have hE := energy_identity c μ hμ.ne' hR2
  unfold epsR at hE
  field_simp [hμ.ne', hR.ne'] at hE
  have hdp := eccDotPos_val c μ hμ.ne' hR2
  field_simp [hμ.ne'] at hdp
  field_simp [hR.ne', hH.ne', he.ne', hμ.ne']
  linear_combination
    (angularMomentumNorm c * eccR c μ * eccR c μ * positionNorm c
        * (-(eccVecRZ c μ * positionDotVelocity c * μ)
            - c.vz * eccR c μ * eccR c μ * positionNorm c * μ)) * hHH
    + (angularMomentumNorm c * eccR c μ * eccR c μ * positionNorm c
        * ((hX c * eccVecRY c μ - hY c * eccVecRX c μ) * μ * μ * positionNorm c
            - c.vz * angularMomentumNormSquared c * positionNorm c * μ)) * hee
    + (angularMomentumNorm c * eccR c μ * eccR c μ * positionNorm c
        * (hX c * eccVecRY c μ - hY c * eccVecRX c μ) * μ) * hdp
    + (angularMomentumNorm c * eccR c μ * eccR c μ * positionNorm c
        * (hX c * eccVecRY c μ - hY c * eccVecRX c μ)) * hE
    + (-(angularMomentumNorm c * eccR c μ * eccR c μ * positionNorm c
        * angularMomentumNormSquared c)) * hdvz
    + (-(angularMomentumNorm c * eccR c μ * eccR c μ * positionNorm c
        * eccVecRZ c μ * μ * angularMomentumNormSquared c)) * hdv

/-! ### C1: Cartesian-Keplerian round trip -/

/-- C1: on every non-degenerate Cartesian state -- positive gravitational
parameter, nonzero position and angular momentum, computed eccentricity and
inclination strictly beyond the tolerance away from the circular, parabolic
and equatorial limit cases -- converting to Keplerian elements and back
returns the original state exactly (in the real-arithmetic model, hence in
particular componentwise within any numerical tolerance such as the spec's
1e-9 relative bound). -/
theorem cartesian_keplerian_roundtrip (c : Cart) (μ tol : ℝ)
    (hμ : 0 < μ) (htol : 0 ≤ tol)
    (hR2 : 0 < positionNormSquared c)
    (hH2 : 0 < angularMomentumNormSquared c)
    (he0 : tol < eccR c μ) (he1 : tol < |eccR c μ - 1|)
    (hi0 : tol < inclR c) (hi1 : inclR c < π - tol) :
    convertKeplerianToCartesianElements
        (convertCartesianToKeplerianElements c μ tol) μ tol
      = ⟨some c.x, some c.y, some c.z, some c.vx, some c.vy, some c.vz⟩ := by
  have hR : positionNorm c ≠ 0 := (Real.sqrt_pos.mpr hR2).ne'
  have hRpos : 0 < positionNorm c := Real.sqrt_pos.mpr hR2
  have hH : 0 < angularMomentumNorm c := Real.sqrt_pos.mpr hH2
  have he : 0 < eccR c μ := lt_of_le_of_lt htol he0
  have he2 : 0 < eccNormSqR c μ := by
    by_contra hcon
    push_neg at hcon
    have : eccR c μ = 0 := by
      unfold eccR
      rw [show eccNormSqR c μ = 0 from le_antisymm hcon (eccNormSqR_nonneg c μ)]
      exact Real.sqrt_zero
    linarith
  have hipos : 0 < inclR c := lt_of_le_of_lt htol hi0
  have hiπ : inclR c < π := by
    have := Real.pi_pos
    linarith
  have hsin : 0 < Real.sin (inclR c) := Real.sin_pos_of_pos_of_lt_pi hipos hiπ
  have hN : 0 < ascendingNodeVectorNorm c := by
    rw [sin_inclR c hH2] at hsin
    by_contra hcon
    push_neg at hcon
    have h0 : ascendingNodeVectorNorm c = 0 :=
      le_antisymm hcon (Real.sqrt_nonneg _)
    rw [h0, zero_div] at hsin
    exact lt_irrefl 0 hsin
  have hN2 : 0 < ascendingNodeVectorNormSquared c := Real.sqrt_pos.mp hN
  have heps : epsR c μ ≠ 0 := by
    intro h0
    have hE := energy_identity c μ hμ.ne' hR2
    rw [h0] at hE
    have hS1 : eccNormSqR c μ = 1 := by rw [hE]; ring
    have : eccR c μ = 1 := by unfold eccR; rw [hS1, Real.sqrt_one]
    rw [this] at he1
    simp at he1
    linarith
  have hee : eccR c μ * eccR c μ = eccNormSqR c μ :=
    Real.mul_self_sqrt (eccNormSqR_nonneg c μ)
  have hHH : angularMomentumNorm c * angularMomentumNorm c
      = angularMomentumNormSquared c := Real.mul_self_sqrt hH2.le
  rw [forward_nondegenerate c μ tol hμ htol hR2 hH2 he0 he1 hi0 hi1]
  have hcond : fgtP (fabsF (fsub (some (eccR c μ)) (fr 1))) tol := by
    simp only [fr_def, fsub_some, fabsF_some]
    exact fgtP_some.mpr he1
  have hslrval : smaR c μ * (1 - eccR c μ * eccR c μ)
      = angularMomentumNormSquared c / μ := by
    rw [hee, energy_identity c μ hμ.ne' hR2]
    unfold smaR
    field_simp
    ring
  have hslr : semiLatusRectumRev
      ⟨some (smaR c μ), some (eccR c μ), some (inclR c),
       some (aopR c μ), some (raanR c), some (taR c μ)⟩ tol
      = some (angularMomentumNormSquared c / μ) := by
    unfold semiLatusRectumRev
    rw [if_pos hcond]
    simp only [fr_def, fmul_some, fsub_some]
    rw [hslrval]
  have hrmden : 1 + eccR c μ * Real.cos (taR c μ)
      = angularMomentumNormSquared c / (μ * positionNorm c) := by
    rw [cos_taR c μ hR2 he2, eccDotPos_val c μ hμ.ne' hR2]
    field_simp
    ring
  have hrmdenne : angularMomentumNormSquared c / (μ * positionNorm c) ≠ 0 :=
    (div_pos hH2 (mul_pos hμ hRpos)).ne'
  have hrm : radiusMagnitudeRev
      ⟨some (smaR c μ), some (eccR c μ), some (inclR c),
       some (aopR c μ), some (raanR c), some (taR c μ)⟩ tol
      = some (positionNorm c) := by
    unfold radiusMagnitudeRev
    rw [hslr]
    simp only [fcos_some, fr_def, fmul_some, fadd_some]
    rw [hrmden, fdiv_some _ hrmdenne]
    congr 1
    field_simp
    ring
  have hvsval : μ / (angularMomentumNormSquared c / μ)
      = (μ / angularMomentumNorm c) ^ 2 := by
    rw [← hHH]
    field_simp
    ring
  have hvs : fsqrt (fdiv (fr μ)
      (semiLatusRectumRev
        ⟨some (smaR c μ), some (eccR c μ), some (inclR c),
         some (aopR c μ), some (raanR c), some (taR c μ)⟩ tol))
      = some (μ / angularMomentumNorm c) := by
    rw [hslr]
    simp only [fr_def]
    rw [fdiv_some _ (div_pos hH2 hμ).ne', fsqrt_some (by positivity)]
    rw [hvsval, Real.sqrt_sq (div_nonneg hμ.le hH.le)]
  unfold convertKeplerianToCartesianElements
  simp only []
  rw [hrm, hvs]
  simp only [fcos_some, fsin_some, fneg_some, fmul_some, fadd_some, fsub_some]
  rw [Vec6.mk.injEq]
  simp only [Option.some.injEq]
  rw [cos_raanR c hN2, sin_raanR c hN2, cos_aopR c μ hN2 he2, sin_aopR c μ hN2 he2,
    cos_taR c μ hR2 he2, sin_taR c μ hμ hR2 he2, cos_inclR c hH2, sin_inclR c hH2]
  refine ⟨?_, ?_, ?_, ?_, ?_, ?_⟩
  · exact slotPX c μ hμ hR2 hH2 hN2 he2
  · exact slotPY c μ hμ hR2 hH2 hN2 he2
  · exact slotPZ c μ hμ hR2 hH2 hN2 he2
  · exact slotVX c μ hμ hR2 hH2 hN2 he2
  · exact slotVY c μ hμ hR2 hH2 hN2 he2
  · exact slotVZ c μ hμ hR2 hH2 hN2 he2

theorem rt_wit_positionNormSquared :
    positionNormSquared ⟨1, 0, 0, 0, 6/5, 1/2⟩ = 1 := by
  norm_num [positionNormSquared]

theorem rt_wit_positionNorm :
    positionNorm ⟨1, 0, 0, 0, 6/5, 1/2⟩ = 1 := by
  unfold positionNorm
  rw [rt_wit_positionNormSquared]
  exact Real.sqrt_one

theorem rt_wit_hsq :
    angularMomentumNormSquared ⟨1, 0, 0, 0, 6/5, 1/2⟩ = 169/100 := by
  norm_num [angularMomentumNormSquared, hX, hY, hZ]

theorem rt_wit_hnorm :
    angularMomentumNorm ⟨1, 0, 0, 0, 6/5, 1/2⟩ = 13/10 := by
  unfold angularMomentumNorm
  rw [rt_wit_hsq, show (169/100 : ℝ) = (13/10)^2 by norm_num,
    Real.sqrt_sq (by norm_num)]

theorem rt_wit_eccsq :
    eccNormSqR ⟨1, 0, 0, 0, 6/5, 1/2⟩ 1 = 4761/10000 := by
  unfold eccNormSqR eccVecRX eccVecRY eccVecRZ
  rw [rt_wit_positionNorm]
  norm_num [velocityNormSquared, positionDotVelocity]

theorem rt_wit_ecc :
    eccR ⟨1, 0, 0, 0, 6/5, 1/2⟩ 1 = 69/100 := by
  unfold eccR
  rw [rt_wit_eccsq, show (4761/10000 : ℝ) = (69/100)^2 by norm_num,
    Real.sqrt_sq (by norm_num)]

theorem rt_wit_incl :
    inclR ⟨1, 0, 0, 0, 6/5, 1/2⟩ = Real.arccos (12/13) := by
  unfold inclR
  rw [rt_wit_hnorm]
  norm_num [hZ]

theorem rt_wit_arccos_lb : 1/10 < Real.arccos (12/13) := by
  by_contra hcon
  push_neg at hcon
  have h1 : Real.cos (1/10) ≤ Real.cos (Real.arccos (12/13)) :=
    Real.cos_le_cos_of_nonneg_of_le_pi (Real.arccos_nonneg _)
      (by nlinarith [Real.pi_gt_three]) hcon
  rw [Real.cos_arccos (by norm_num) (by norm_num)] at h1
  have h2 : (1:ℝ) - (1/10)^2 / 2 ≤ Real.cos (1/10) :=
    Real.one_sub_sq_div_two_le_cos
  norm_num at h1 h2
  linarith

theorem rt_wit_arccos_ub : Real.arccos (12/13) < π - 1/10 := by
  have h1 : Real.arccos (12/13) < π / 2 :=
    Real.arccos_lt_pi_div_two.mpr (by norm_num)
  nlinarith [Real.pi_gt_three]

/-- C1 witness: the concrete state `(1, 0, 0, 0, 6/5, 1/2)` with `mu = 1`,
tolerance `1/10` (eccentricity `69/100`, inclination `arccos(12/13)`) is
non-degenerate and round-trips exactly. -/
theorem cartesian_keplerian_roundtrip_witness :
    convertKeplerianToCartesianElements
        (convertCartesianToKeplerianElements ⟨1, 0, 0, 0, 6/5, 1/2⟩ 1 (1/10)) 1 (1/10)
      = ⟨some 1, some 0, some 0, some 0, some (6/5), some (1/2)⟩ :=
  cartesian_keplerian_roundtrip ⟨1, 0, 0, 0, 6/5, 1/2⟩ 1 (1/10) (by norm_num) (by norm_num)
    (by norm_num [positionNormSquared])
    (by norm_num [angularMomentumNormSquared, hX, hY, hZ])
    (by rw [rt_wit_ecc]; norm_num)
    (by rw [rt_wit_ecc, show (69/100 : ℝ) - 1 = -(31/100) by norm_num, abs_neg,
          abs_of_pos (by norm_num : (0:ℝ) < 31/100)]
        norm_num)
    (by rw [rt_wit_incl]; exact rt_wit_arccos_lb)
    (by rw [rt_wit_incl]; exact rt_wit_arccos_ub)

end astro
